import Mathlib

/-!
Shallow embedding of the tool-calling orchestration loop of the chat-app
repository (`src/app/chat/llm.service.ts`), of the session-level streaming
wrapper (`streamUserMessageById` in the chat service) and of the tRPC
subscription glue (`src/app/chat/chat.router.ts`).

The external collaborators are modelled as explicit parameters:
* the LLM provider is a function from the round number and the current
  message history to either a response (non-streaming) or a finite list of
  delta events (streaming); a rejected network call is an `Except.error`
  carrying the thrown error's message.  The round number argument models the
  provider's statefulness; the source passes only the message list.
* `JSON.parse` is a parameter `Env.parseJson`; `JSON.stringify` of the
  synthetic error objects is implemented (`jsonErrorString`).
* tool handlers are pure functions `Json → AuthInfo → Except String ToolResult`;
  an `Except.error` models a thrown/rejected handler.

Thrown JavaScript errors are modelled by `Except String` / `Option String`
error components carrying the error message (`error.message`).
-/

namespace ChatApp

/-- JSON values, used for parsed tool arguments, `structuredContent` and
`_meta` bags. -/
inductive Json where
  | null : Json
  | bool : Bool → Json
  | num : Int → Json
  | str : String → Json
  | arr : List Json → Json
  | obj : List (String × Json) → Json

/-- A fully assembled tool call reference: `{id, name, arguments}` with
`arguments` a serialized-JSON string (`type` is always `"function"`). -/
structure ToolCall where
  id : String
  name : String
  arguments : String
deriving DecidableEq, Repr

/-- The `ChatMessage` interface of `llm.service.ts`.  `tool_calls` entries are
the nested `function` payloads together with their ids; the constant
`type: "function"` tag is omitted. -/
structure ChatMessage where
  role : String
  content : String
  tool_calls : List ToolCall := []
  tool_call_id : Option String := none
  name : Option String := none
deriving DecidableEq, Repr

/-- One tool call of a non-streaming LLM response:
`{id, type, function: {name, arguments}}` (the `function` fields are
flattened into `name`/`arguments`). -/
structure RespToolCall where
  id : String
  type : String
  name : String
  arguments : String
deriving DecidableEq, Repr

/-- The message of a non-streaming LLM response (`response.choices[0].message`).
An absent `tool_calls` array is modelled as the empty list, which the code
treats identically (`toolCalls && toolCalls.length > 0`). -/
structure LLMMessage where
  content : Option String := none
  tool_calls : List RespToolCall := []

/-- One item of a tool result's `content` array.  Registry handlers return
`{type: "text", text}` items; the driver renders `item.text`. -/
structure ContentItem where
  type : String := "text"
  text : String

/-- The result shape returned by registry tool handlers
(`ToolResult` in `src/app/mcp/tools.registry.ts`): a `content` array of text
items, optional `structuredContent` and `widgetId`, and an optional `_meta`
bag (allowed by the interface's index signature and read by the drivers). -/
structure ToolResult where
  content : List ContentItem
  structuredContent : Option Json := none
  widgetId : Option String := none
  _meta : Option Json := none

/-- The authentication context handed to tool handlers:
`{token: "", extra: {userId}}`, flattened. -/
structure AuthInfo where
  token : String
  userId : String

/-- A registered tool: name plus handler (description/inputSchema only feed
the LLM request and are irrelevant to the loop semantics). -/
structure ToolDefinition where
  name : String
  handler : Json → AuthInfo → Except String ToolResult

/-- The external environment of a run: the tool registry and the JSON parser
(`JSON.parse`, whose failure carries the thrown error's message). -/
structure Env where
  registry : List ToolDefinition
  parseJson : String → Except String Json

/-- Registry lookup by exact name, `toolRegistry.find(t => t.name === name)`. -/
def Env.findTool (env : Env) (name : String) : Option ToolDefinition :=
  env.registry.find? (fun t => t.name == name)

/-- JavaScript string truthiness for optional string fields: present and
non-empty. -/
def optTruthy (o : Option String) : Bool :=
  o.getD "" != ""

/-- Escape one character the way `JSON.stringify` escapes string contents. -/
def jsEscapeChar (c : Char) : String :=
  if c = '\"' then "\\\""
  else if c = '\\' then "\\\\"
  else if c = '\n' then "\\n"
  else if c = '\t' then "\\t"
  else if c = '\r' then "\\r"
  else String.singleton c

/-- Escape a string the way `JSON.stringify` escapes string contents. -/
def jsEscape (s : String) : String :=
  String.join (s.data.map jsEscapeChar)

/-- The serialization `JSON.stringify({error: msg})` used for synthetic tool
error messages. -/
def jsonErrorString (msg : String) : String :=
  "\x7b\"error\":\"" ++ jsEscape msg ++ "\"\x7d"

/-- Textual rendering of a tool result's content array:
`result.content.map(item => item.text || item).join("\n")`.  The model fixes
`content` to be an array of text items (as every registry handler produces),
so the non-array `JSON.stringify` branch and the object fallback for a falsy
`text` do not arise. -/
def renderResultText (r : ToolResult) : String :=
  String.intercalate "\n" (r.content.map (fun item => item.text))

/-- Extraction of the widget id from a `_meta` bag: `_meta.path` when it is a
truthy (non-empty) string, per
`if (metaPath && typeof metaPath === "string") finalWidgetId = metaPath`. -/
def metaWidgetPath (m : Json) : Option String :=
  match m with
  | .obj fields =>
    match fields.lookup "path" with
    | some (.str s) => if s == "" then none else some s
    | _ => none
  | _ => none

/-- The mutable per-run state threaded through tool execution: the growing
message history and the three sticky fields (`finalMeta`,
`finalStructuredContent`, `finalWidgetId`). -/
structure ExecState where
  messages : List ChatMessage
  finalMeta : Option Json := none
  finalStructuredContent : Option Json := none
  finalWidgetId : Option String := none

/-- Sticky-field capture from one successful tool result: `_meta` (and the
widget id derived from its `path`) is stored only when no meta was captured
yet (`result._meta && !finalMeta`), and `structuredContent` only when none was
captured yet (`result.structuredContent && !finalStructuredContent`). -/
def applyStickyFromResult (st : ExecState) (r : ToolResult) : ExecState :=
  let st :=
    match r._meta, st.finalMeta with
    | some m, none =>
      { st with
        finalMeta := some m,
        finalWidgetId :=
          match metaWidgetPath m with
          | some p => some p
          | none => st.finalWidgetId }
    | _, _ => st
  match r.structuredContent, st.finalStructuredContent with
  | some sc, none => { st with finalStructuredContent := some sc }
  | _, _ => st

/-- The synthetic tool message for a failed call:
`{role: "tool", content: JSON.stringify({error: "Error executing tool: " + e}),
tool_call_id, name}`. -/
def toolErrorMessage (tc : ToolCall) (e : String) : ChatMessage :=
  { role := "tool"
    content := jsonErrorString ("Error executing tool: " ++ e)
    tool_call_id := some tc.id
    name := some tc.name }

/-- The synthetic tool message for an unregistered tool name. -/
def toolNotFoundMessage (tc : ToolCall) : ChatMessage :=
  { role := "tool"
    content := jsonErrorString ("Tool " ++ tc.name ++ " not found")
    tool_call_id := some tc.id
    name := some tc.name }

/-- The tool message carrying a successful result's rendered text. -/
def toolOkMessage (tc : ToolCall) (text : String) : ChatMessage :=
  { role := "tool"
    content := text
    tool_call_id := some tc.id
    name := some tc.name }

/-- One tool call of a round in `getChatCompletion` (the buffered Completion
Driver): registry lookup, `JSON.parse` of the raw arguments, handler
invocation with try/catch, sticky capture, and exactly one appended tool
message. -/
def execToolCall (env : Env) (auth : AuthInfo) (st : ExecState) (tc : ToolCall) :
    ExecState :=
  match env.findTool tc.name with
  | none =>
    { st with messages := st.messages ++ [toolNotFoundMessage tc] }
  | some tool =>
    match env.parseJson tc.arguments with
    | .error e => { st with messages := st.messages ++ [toolErrorMessage tc e] }
    | .ok args =>
      match tool.handler args auth with
      | .error e => { st with messages := st.messages ++ [toolErrorMessage tc e] }
      | .ok result =>
        let st := applyStickyFromResult st result
        { st with messages := st.messages ++ [toolOkMessage tc (renderResultText result)] }

/-- Sequential execution of one round's tool calls, in the order received. -/
def execToolCalls (env : Env) (auth : AuthInfo) (st : ExecState)
    (tcs : List ToolCall) : ExecState :=
  tcs.foldl (execToolCall env auth) st

/-- The final result of a non-streaming run
(`ChatCompletionResult` in `llm.service.ts`). -/
structure ChatCompletionResult where
  content : String
  _meta : Option Json := none
  structuredContent : Option Json := none
  widgetId : Option String := none

/-- Outcome of a buffered run: the final internal message history (exposed for
specification) and the returned result or the thrown error's message. -/
structure ChatOutcome where
  messages : List ChatMessage
  result : Except String ChatCompletionResult

/-- Projection from a response tool call to the executed `{id, name, arguments}`
triple (the verbatim re-serialization pushed into the assistant message). -/
def respToCall (rc : RespToolCall) : ToolCall :=
  ⟨rc.id, rc.name, rc.arguments⟩

/-- The iteration cap of both drivers (`maxIterations = 10`). -/
def maxIterations : Nat := 10

/-- The bounded loop of `getChatCompletion`: `fuel` is the number of remaining
rounds permitted by `while (iteration < maxIterations)` and `iter` the 1-based
round number passed to the LLM oracle.  A response with tool calls appends the
assistant message and the per-call tool messages and loops; a response without
tool calls terminates with the captured sticky fields. -/
def chatLoop (env : Env) (llm : Nat → List ChatMessage → Except String LLMMessage)
    (auth : AuthInfo) : Nat → Nat → ExecState → ChatOutcome
  | 0, _, st => ⟨st.messages, .error "Maximum tool call iterations exceeded"⟩
  | fuel + 1, iter, st =>
    match llm iter st.messages with
    | .error e => ⟨st.messages, .error e⟩
    | .ok m =>
      if m.tool_calls.isEmpty then
        ⟨st.messages,
         .ok { content := m.content.getD ""
               _meta := st.finalMeta
               structuredContent := st.finalStructuredContent
               widgetId := st.finalWidgetId }⟩
      else
        let functionToolCalls :=
          (m.tool_calls.filter (fun tc => tc.type == "function")).map respToCall
        let st := { st with
          messages := st.messages ++
            [{ role := "assistant", content := m.content.getD ""
               tool_calls := functionToolCalls }] }
        let st := execToolCalls env auth st functionToolCalls
        chatLoop env llm auth fuel (iter + 1) st

/-- The exported `getChatCompletion`: runs the loop from iteration 1 with
empty sticky state; the surrounding try/catch re-throws any error as
`Failed to get chat completion: <message>`. -/
def getChatCompletionModel (env : Env)
    (llm : Nat → List ChatMessage → Except String LLMMessage)
    (messages : List ChatMessage) (userId : String) : ChatOutcome :=
  let auth : AuthInfo := ⟨"", userId⟩
  let o := chatLoop env llm auth maxIterations 1 { messages := messages }
  match o.result with
  | .error e => ⟨o.messages, .error ("Failed to get chat completion: " ++ e)⟩
  | .ok r => ⟨o.messages, .ok r⟩

/-- A `StreamChunk` emitted by the streaming driver (and re-emitted by the
session wrapper, whose `done` carries the persisted assistant message id). -/
inductive StreamChunk where
  | content (text : String)
  | tool_call (toolCalls : List ToolCall)
  | tool_result (text : String)
  | metadata (_meta : Option Json) (structuredContent : Option Json)
      (widgetId : Option String)
  | done (assistantMessageId : Option String)

/-- The `function` payload of a streamed tool-call delta. -/
structure FunctionDelta where
  name : Option String := none
  arguments : Option String := none

/-- One element of `delta.tool_calls` in a streamed chunk. -/
structure ToolCallDelta where
  index : Option Nat := none
  id : Option String := none
  function : Option FunctionDelta := none

/-- One streamed provider event (`chunk.choices[0]`): optional content delta,
tool-call deltas and finish reason.  Chunks without a `choices[0]` are skipped
by the code (`if (!choice) continue`) and are not modelled. -/
structure StreamEvent where
  content : Option String := none
  tool_calls : List ToolCallDelta := []
  finish_reason : Option String := none

/-- Field merge of one delta into the in-progress tool call at its index:
`id` and `name` are overwritten when truthy in the delta, `arguments` text is
appended when truthy. -/
def mergeDeltaIntoCall (tc : ToolCall) (d : ToolCallDelta) (f : FunctionDelta) :
    ToolCall :=
  let tc := if optTruthy d.id then { tc with id := d.id.getD "" } else tc
  let tc := if optTruthy f.name then { tc with name := f.name.getD "" } else tc
  if optTruthy f.arguments then
    { tc with arguments := tc.arguments ++ f.arguments.getD "" }
  else tc

/-- Application of one tool-call delta to the ordered in-progress list: deltas
without a `function` payload or without an `index` are skipped; when the index
reaches beyond the current length a new entry is appended, initialized with
`{id: delta.id || "", name: "", arguments: ""}`; then the entry at the index
is merged.  An index still out of range after the append (a gap) makes the
JavaScript property assignments throw a `TypeError`, modelled as an error when
any assignment would run. -/
def applyToolCallDelta (tcs : List ToolCall) (d : ToolCallDelta) :
    Except String (List ToolCall) :=
  match d.function with
  | none => .ok tcs
  | some f =>
    match d.index with
    | none => .ok tcs
    | some index =>
      let tcs :=
        if tcs.length ≤ index then
          tcs ++ [{ id := d.id.getD "", name := "", arguments := "" }]
        else tcs
      if index < tcs.length then
        .ok (tcs.set index (mergeDeltaIntoCall (tcs.getD index ⟨"", "", ""⟩) d f))
      else
        if optTruthy d.id || optTruthy f.name || optTruthy f.arguments then
          .error "Cannot set properties of undefined"
        else
          .ok tcs

/-- Left-to-right application of one event's tool-call deltas, stopping at the
first thrown error. -/
def applyToolCallDeltas (tcs : List ToolCall) :
    List ToolCallDelta → Except String (List ToolCall)
  | [] => .ok tcs
  | d :: ds =>
    match applyToolCallDelta tcs d with
    | .error e => .error e
    | .ok next => applyToolCallDeltas next ds

/-- The per-round streaming state: accumulated content, in-progress tool
calls, the `hasToolCalls` flag, and the content chunks yielded so far. -/
structure RoundStream where
  accumulatedContent : String := ""
  toolCalls : List ToolCall := []
  hasToolCalls : Bool := false
  chunks : List StreamChunk := []

/-- Content handling of one event: a truthy `delta.content` is appended to the
accumulator and immediately yielded as a `content` chunk. -/
def emitEventContent (s : RoundStream) (ev : StreamEvent) : RoundStream :=
  match ev.content with
  | some c =>
    if c != "" then
      { s with accumulatedContent := s.accumulatedContent ++ c
               chunks := s.chunks ++ [.content c] }
    else s
  | none => s

/-- The finish-reason check of one event:
`if (choice.finish_reason === "tool_calls") hasToolCalls = true`. -/
def applyFinish (s : RoundStream) (ev : StreamEvent) : RoundStream :=
  if ev.finish_reason == some "tool_calls" then { s with hasToolCalls := true }
  else s

/-- The `for await (const chunk of stream)` phase of one round: per event, the
finish-reason check, then the tool-call delta block (which sets
`hasToolCalls` and may throw), then the content block.  A thrown error ends
the phase with the chunks yielded so far. -/
def processEvents (s : RoundStream) : List StreamEvent → RoundStream × Option String
  | [] => (s, none)
  | ev :: rest =>
    let s := applyFinish s ev
    if ev.tool_calls.isEmpty then
      processEvents (emitEventContent s ev) rest
    else
      let s := { s with hasToolCalls := true }
      match applyToolCallDeltas s.toolCalls ev.tool_calls with
      | .error e => (s, some e)
      | .ok tcs =>
        processEvents (emitEventContent { s with toolCalls := tcs } ev) rest

/-- One tool call of a round in `streamChatCompletion`: like `execToolCall`,
except that an empty reassembled arguments string is not parsed (the handler
receives `{}`) and a `tool_result` chunk is yielded for every completed or
failed call (but not in the not-found branch, which yields nothing). -/
def execToolCallStream (env : Env) (auth : AuthInfo) (st : ExecState)
    (tc : ToolCall) : List StreamChunk × ExecState :=
  match env.findTool tc.name with
  | none =>
    ([], { st with messages := st.messages ++ [toolNotFoundMessage tc] })
  | some tool =>
    match (if tc.arguments != "" then env.parseJson tc.arguments else .ok (.obj [])) with
    | .error e =>
      ([.tool_result (jsonErrorString ("Error executing tool: " ++ e))],
       { st with messages := st.messages ++ [toolErrorMessage tc e] })
    | .ok args =>
      match tool.handler args auth with
      | .error e =>
        ([.tool_result (jsonErrorString ("Error executing tool: " ++ e))],
         { st with messages := st.messages ++ [toolErrorMessage tc e] })
      | .ok result =>
        let st := applyStickyFromResult st result
        ([.tool_result (renderResultText result)],
         { st with messages := st.messages ++ [toolOkMessage tc (renderResultText result)] })

/-- Sequential streaming execution of one round's tool calls, collecting the
yielded `tool_result` chunks in order. -/
def execToolCallsStream (env : Env) (auth : AuthInfo) :
    ExecState → List ToolCall → List StreamChunk × ExecState
  | st, [] => ([], st)
  | st, tc :: rest =>
    let (cs, st) := execToolCallStream env auth st tc
    let (cs2, st) := execToolCallsStream env auth st rest
    (cs ++ cs2, st)

/-- The final `metadata` chunk, emitted only when some sticky field is set
(`if (finalMeta || finalStructuredContent || finalWidgetId)`). -/
def metadataChunkList (m sc : Option Json) (w : Option String) : List StreamChunk :=
  if m.isSome || sc.isSome || w.isSome then [.metadata m sc w] else []

/-- Outcome of a streaming run: the chunks yielded (in emission order, up to
the point of any thrown error), the final internal message history and sticky
fields (exposed for specification), and the thrown error's message if the
generator threw. -/
structure StreamOutcome where
  chunks : List StreamChunk
  messages : List ChatMessage
  finalMeta : Option Json
  finalStructuredContent : Option Json
  finalWidgetId : Option String
  error : Option String

/-- The bounded loop of `streamChatCompletion`: each round streams the
provider events, reassembles tool calls, and either executes the batch (after
yielding a `tool_call` chunk) and loops, or yields the `metadata` chunk (only
when some sticky field is set) followed by `done` and terminates. -/
def streamLoop (env : Env)
    (llm : Nat → List ChatMessage → Except String (List StreamEvent))
    (auth : AuthInfo) : Nat → Nat → ExecState → StreamOutcome
  | 0, _, st =>
    ⟨[], st.messages, st.finalMeta, st.finalStructuredContent, st.finalWidgetId,
     some "Maximum tool call iterations exceeded"⟩
  | fuel + 1, iter, st =>
    match llm iter st.messages with
    | .error e =>
      ⟨[], st.messages, st.finalMeta, st.finalStructuredContent, st.finalWidgetId,
       some e⟩
    | .ok events =>
      let (rs, streamErr) := processEvents {} events
      match streamErr with
      | some e =>
        ⟨rs.chunks, st.messages, st.finalMeta, st.finalStructuredContent,
         st.finalWidgetId, some e⟩
      | none =>
        if rs.hasToolCalls && !rs.toolCalls.isEmpty then
          let st := { st with
            messages := st.messages ++
              [{ role := "assistant", content := rs.accumulatedContent
                 tool_calls := rs.toolCalls }] }
          let (execChunks, st) := execToolCallsStream env auth st rs.toolCalls
          let rest := streamLoop env llm auth fuel (iter + 1) st
          ⟨rs.chunks ++ [.tool_call rs.toolCalls] ++ execChunks ++ rest.chunks,
           rest.messages, rest.finalMeta, rest.finalStructuredContent,
           rest.finalWidgetId, rest.error⟩
        else
          ⟨rs.chunks ++
             metadataChunkList st.finalMeta st.finalStructuredContent st.finalWidgetId
             ++ [.done none],
           st.messages, st.finalMeta, st.finalStructuredContent, st.finalWidgetId,
           none⟩

/-- The exported `streamChatCompletion`: runs the streaming loop from
iteration 1 with empty sticky state; the surrounding try/catch re-throws any
error as `Failed to stream chat completion: <message>`. -/
def streamChatCompletionModel (env : Env)
    (llm : Nat → List ChatMessage → Except String (List StreamEvent))
    (messages : List ChatMessage) (userId : String) : StreamOutcome :=
  let auth : AuthInfo := ⟨"", userId⟩
  let o := streamLoop env llm auth maxIterations 1 { messages := messages }
  match o.error with
  | some e => { o with error := some ("Failed to stream chat completion: " ++ e) }
  | none => o

/-- Membership test for a character-list pattern at the head of a list. -/
def charsStartWith : List Char → List Char → Bool
  | _, [] => true
  | [], _ :: _ => false
  | c :: cs, p :: ps => c == p && charsStartWith cs ps

/-- Substring containment on character lists. -/
def charsContain : List Char → List Char → Bool
  | [], pat => pat.isEmpty
  | s@(_ :: rest), pat => charsStartWith s pat || charsContain rest pat

/-- JavaScript `s.includes(pat)`. -/
def strIncludes (s pat : String) : Bool :=
  charsContain s.data pat.data

/-- The escape-hatch marker string looked for in historical message contents. -/
def resetMarker : String :=
  "-- IGNORE CONVERSATION BEFORE THIS LINE --"

/-- A persisted message row of the session (`devMessage`), with the columns
the wrapper reads or writes. -/
structure DbRow where
  id : String
  role : String
  content : String
  structured_content : Option Json
  widget_id : Option String

/-- History selection of `streamUserMessageById`: the `forEach` that resets
the collected list whenever a message's content contains the marker, then
pushes the message; so the result is the suffix starting at the last
marker-containing message (or the whole history when none contains it). -/
def selectPreviousMessages (all : List DbRow) : List DbRow :=
  all.foldl
    (fun prev msg =>
      (if strIncludes msg.content resetMarker then [] else prev) ++ [msg])
    []

/-- Conversion of a persisted row to the chat shape handed to the driver:
only `role` and `content` are carried over. -/
def rowToChatMessage (r : DbRow) : ChatMessage :=
  { role := r.role, content := r.content }

/-- The `structured_content` column stored for the new assistant message:
`finalStructuredContent || finalMeta ? {...(finalStructuredContent || {}),
...(finalMeta ? {_meta: finalMeta} : {})} : null`. -/
def combinedStructuredContent (sc meta : Option Json) : Option Json :=
  match sc, meta with
  | none, none => none
  | _, _ =>
    some (.obj
      ((match sc with
        | some (.obj fields) => fields
        | _ => []) ++
       (match meta with
        | some m => [("_meta", m)]
        | none => [])))

/-- The wrapper's fold state while consuming driver chunks: the accumulated
content, the metadata captured from `metadata` chunks, the chunks re-emitted
to the consumer, and the rows inserted into the message store. -/
structure WrapperState where
  accumulatedContent : String := ""
  finalMeta : Option Json := none
  finalStructuredContent : Option Json := none
  finalWidgetId : Option String := none
  emitted : List StreamChunk := []
  inserted : List DbRow := []

/-- Processing of one driver chunk by `streamUserMessageById`: the chunk is
forwarded first; a truthy `content` chunk is accumulated; a `metadata` chunk
overwrites the captured metadata; a `done` chunk inserts the assistant row
(content, combined structured content, `finalWidgetId || null`) and then
yields a second `done` carrying the fresh row id.  The session-title side
quest is omitted: it only updates the session's name, never the message store
or the chunk stream, and its failure is swallowed. -/
def wrapperStep (freshId : String) (ws : WrapperState) (c : StreamChunk) :
    WrapperState :=
  let ws := { ws with emitted := ws.emitted ++ [c] }
  match c with
  | .content t =>
    if t != "" then { ws with accumulatedContent := ws.accumulatedContent ++ t }
    else ws
  | .metadata m sc w =>
    { ws with finalMeta := m, finalStructuredContent := sc, finalWidgetId := w }
  | .done _ =>
    let row : DbRow :=
      { id := freshId
        role := "assistant"
        content := ws.accumulatedContent
        structured_content :=
          combinedStructuredContent ws.finalStructuredContent ws.finalMeta
        widget_id := if optTruthy ws.finalWidgetId then ws.finalWidgetId else none }
    { ws with inserted := ws.inserted ++ [row]
              emitted := ws.emitted ++ [.done (some freshId)] }
  | _ => ws

/-- Outcome of the session-level wrapper: the chunks emitted to the consumer,
the rows inserted into the message store, and the propagated error if the
driver threw (the wrapper's catch block re-throws; its partial-save code is
commented out in the source). -/
structure WrapperOutcome where
  emitted : List StreamChunk
  inserted : List DbRow
  error : Option String

/-- The session-level wrapper `streamUserMessageById`: selects the prior
history (with the marker reset), converts rows to chat messages, runs the
streaming driver, folds its chunks with `wrapperStep`, and propagates the
driver's error.  Row loading, ownership checks and the `updated_at` touches
are persistence glue outside the model; `freshId` stands for the row id the
insert returns. -/
def streamUserMessageByIdModel (env : Env)
    (llm : Nat → List ChatMessage → Except String (List StreamEvent))
    (userId freshId : String) (rows : List DbRow) : WrapperOutcome :=
  let chatMessages := (selectPreviousMessages rows).map rowToChatMessage
  let d := streamChatCompletionModel env llm chatMessages userId
  let ws := d.chunks.foldl (wrapperStep freshId) {}
  ⟨ws.emitted, ws.inserted, d.error⟩

/-- An event pushed over the tRPC subscription: a forwarded chunk
(`emit.next`) or a terminal error (`emit.error`). -/
inductive SubEvent where
  | next (chunk : StreamChunk)
  | errorEvent (message : String)

/-- The subscription glue of `chat.router.ts` (`streamMessage`): every chunk
of the wrapper generator is forwarded with `emit.next`, and a thrown error is
surfaced with `emit.error` after the chunks emitted before it. -/
def streamMessageEvents (w : WrapperOutcome) : List SubEvent :=
  w.emitted.map SubEvent.next ++
    (match w.error with
     | some e => [.errorEvent e]
     | none => [])

/-- One logical LLM decision for a round, as used by the driver-equivalence
stub: the response content and the tool calls with their argument strings. -/
structure Decision where
  content : Option String := none
  toolCalls : List ToolCall := []

/-- The non-streaming rendering of a decision: a response message whose tool
calls are the decision's calls tagged `type: "function"`. -/
def messageOfDecision (d : Decision) : LLMMessage :=
  { content := d.content
    tool_calls := d.toolCalls.map (fun tc => ⟨tc.id, "function", tc.name, tc.arguments⟩) }

/-- The full delta for the tool call at a given stream index: id, name and
the whole arguments string in one fragment. -/
def deltaOfCall (i : Nat) (tc : ToolCall) : ToolCallDelta :=
  { index := some i, id := some tc.id
    function := some { name := some tc.name, arguments := some tc.arguments } }

/-- The delta list for a call batch, indexed consecutively from `n`. -/
def deltasOfCalls (n : Nat) : List ToolCall → List ToolCallDelta
  | [] => []
  | tc :: rest => deltaOfCall n tc :: deltasOfCalls (n + 1) rest

/-- The streaming rendering of a decision: a single event carrying the whole
content, one full delta per tool call (indexed from 0), and finish reason
`tool_calls` or `stop`. -/
def eventsOfDecision (d : Decision) : List StreamEvent :=
  [{ content := d.content
     tool_calls := deltasOfCalls 0 d.toolCalls
     finish_reason := some (if d.toolCalls.isEmpty then "stop" else "tool_calls") }]

/-- A decision oracle viewed as a non-streaming LLM. -/
def llmOfDec (dec : Nat → List ChatMessage → Except String Decision)
    (i : Nat) (ms : List ChatMessage) : Except String LLMMessage :=
  (dec i ms).map messageOfDecision

/-- A decision oracle viewed as a streaming LLM. -/
def streamOfDec (dec : Nat → List ChatMessage → Except String Decision)
    (i : Nat) (ms : List ChatMessage) : Except String (List StreamEvent) :=
  (dec i ms).map eventsOfDecision

/-- First `some` in a list of options. -/
def firstSome {α : Type} : List (Option α) → Option α
  | [] => none
  | o :: rest =>
    match o with
    | some v => some v
    | none => firstSome rest

/-- The successful result of one tool call under the buffered executor, when
lookup, parse and handler all succeed (`none` on any failure, which captures
no sticky fields). -/
def callResult (env : Env) (auth : AuthInfo) (tc : ToolCall) : Option ToolResult :=
  match env.findTool tc.name with
  | none => none
  | some tool =>
    match env.parseJson tc.arguments with
    | .error _ => none
    | .ok args =>
      match tool.handler args auth with
      | .error _ => none
      | .ok r => some r

/-- The successful result of one tool call under the streaming executor: like
`callResult`, but an empty reassembled arguments string is not parsed — the
handler receives the empty object (`toolCall.arguments ? JSON.parse(...) : {}`). -/
def callResultStream (env : Env) (auth : AuthInfo) (tc : ToolCall) :
    Option ToolResult :=
  match env.findTool tc.name with
  | none => none
  | some tool =>
    match (if tc.arguments != "" then env.parseJson tc.arguments else .ok (.obj [])) with
    | .error _ => none
    | .ok args =>
      match tool.handler args auth with
      | .error _ => none
      | .ok r => some r

/-- A result's present (non-null) `_meta` bag, as an occurrence for the sticky
fold. -/
def metaOccurrence (r : Option ToolResult) : Option Json :=
  match r with
  | some res => res._meta
  | none => none

/-- A result's present `structuredContent`, as an occurrence for the sticky
fold. -/
def structuredOccurrence (r : Option ToolResult) : Option Json :=
  match r with
  | some res => res.structuredContent
  | none => none

/-- The reading of the spec's sticky-widget sentence: the first non-empty
`widgetId` field occurring across the tool results, in execution order.
Declared only to compare against what the drivers actually compute. -/
def specFinalWidgetId (results : List ToolResult) : Option String :=
  firstSome
    (results.map (fun r =>
      match r.widgetId with
      | some w => if w == "" then none else some w
      | none => none))

/-- Concatenation of the texts of the `content` chunks of a chunk sequence,
in emission order. -/
def contentConcat : List StreamChunk → String
  | [] => ""
  | .content t :: rest => t ++ contentConcat rest
  | _ :: rest => contentConcat rest

/-- Recognizer for `done` chunks. -/
def isDoneChunk : StreamChunk → Bool
  | .done _ => true
  | _ => false

/-- Recognizer for `metadata` chunks. -/
def isMetadataChunk : StreamChunk → Bool
  | .metadata _ _ _ => true
  | _ => false

/-- Recognizer for `content` chunks. -/
def isContentChunk : StreamChunk → Bool
  | .content _ => true
  | _ => false

/-- Recognizer for `tool_result` chunks. -/
def isToolResultChunk : StreamChunk → Bool
  | .tool_result _ => true
  | _ => false

/-- Option preference: the first operand when present, else the second. -/
def orO {α : Type} (a b : Option α) : Option α :=
  match a with
  | some v => some v
  | none => b

/-- The content chunks a round emits for one optional content delta. -/
def contentChunkList (c : Option String) : List StreamChunk :=
  if optTruthy c then [.content (c.getD "")] else []

/-- The text a round accumulates for one optional content delta (truthy
contents only, matching `if (delta.content)`). -/
def truthyText (c : Option String) : String :=
  if optTruthy c then c.getD "" else ""

/-- The concatenated truthy content texts of an event list, in order. -/
def eventsContentText : List StreamEvent → String
  | [] => ""
  | ev :: rest => truthyText ev.content ++ eventsContentText rest

/-- The content chunks a round emits for an event list, in order. -/
def eventsContentChunks : List StreamEvent → List StreamChunk
  | [] => []
  | ev :: rest => contentChunkList ev.content ++ eventsContentChunks rest

/-! Concrete fixtures used by witnesses and counterexamples. -/

/-- A deterministic model of `JSON.parse` for the fixture argument strings:
`"{}"` parses to the empty object; the empty string fails the way
`JSON.parse("")` throws. -/
def fxParse : String → Except String Json :=
  fun s =>
    if s == "\x7b\x7d" then .ok (.obj [])
    else if s == "" then .error "Unexpected end of JSON input"
    else .error "Unexpected token"

/-- Fixture handler: a plain text result with no sticky fields. -/
def fxHandlerAdd : Json → AuthInfo → Except String ToolResult :=
  fun _ _ => .ok { content := [{ text := "3" }] }

/-- Fixture handler with structured content and a meta path `w1`. -/
def fxHandlerSticky1 : Json → AuthInfo → Except String ToolResult :=
  fun _ _ => .ok
    { content := [{ text := "one" }]
      structuredContent := some (.obj [("s", .str "one")])
      _meta := some (.obj [("path", .str "w1")]) }

/-- Fixture handler with structured content and a meta path `w2`. -/
def fxHandlerSticky2 : Json → AuthInfo → Except String ToolResult :=
  fun _ _ => .ok
    { content := [{ text := "two" }]
      structuredContent := some (.obj [("s", .str "two")])
      _meta := some (.obj [("path", .str "w2")]) }

/-- The result of the fixture handler that sets only the `widgetId` field. -/
def fxWidgetResult : ToolResult :=
  { content := [{ text := "ok" }], widgetId := some "w" }

/-- Fixture handler returning a non-empty `widgetId` field and nothing else. -/
def fxHandlerWidget : Json → AuthInfo → Except String ToolResult :=
  fun _ _ => .ok fxWidgetResult

/-- Fixture handler returning only structured content. -/
def fxHandlerSC : Json → AuthInfo → Except String ToolResult :=
  fun _ _ => .ok
    { content := [{ text := "ok" }]
      structuredContent := some (.obj [("a", .num 1)]) }

/-- The fixture environment: five registered tools and the fixture parser. -/
def fxEnv : Env :=
  { registry :=
      [⟨"add", fxHandlerAdd⟩, ⟨"s1", fxHandlerSticky1⟩, ⟨"s2", fxHandlerSticky2⟩,
       ⟨"tw", fxHandlerWidget⟩, ⟨"tsc", fxHandlerSC⟩]
    parseJson := fxParse }

/-- The initial fixture history: one user message. -/
def fxInit : List ChatMessage :=
  [{ role := "user", content := "hi" }]

/-- The fixture tool call to the `add` tool with arguments `"{}"`. -/
def fxCallAdd : ToolCall := ⟨"c1", "add", "\x7b\x7d"⟩

/-- A non-streaming LLM stub that requests the `add` tool on every round. -/
def fxLlmAlways : Nat → List ChatMessage → Except String LLMMessage :=
  fun _ _ => .ok { content := some "", tool_calls := [⟨"c1", "function", "add", "\x7b\x7d"⟩] }

/-- A non-streaming LLM stub that requests the `add` tool on rounds `1..n`
and answers `final` with no tool calls afterwards. -/
def fxLlmUpTo (n : Nat) : Nat → List ChatMessage → Except String LLMMessage :=
  fun i _ =>
    if i ≤ n then .ok { content := some "", tool_calls := [⟨"c1", "function", "add", "\x7b\x7d"⟩] }
    else .ok { content := some "final" }

/-- A streaming LLM stub that requests the `add` tool on every round. -/
def fxStreamAlways : Nat → List ChatMessage → Except String (List StreamEvent) :=
  fun _ _ => .ok [{ tool_calls := [deltaOfCall 0 fxCallAdd], finish_reason := some "tool_calls" }]

/-- A streaming LLM stub that requests the `add` tool on rounds `1..n` and
streams `final` with no tool calls afterwards. -/
def fxStreamUpTo (n : Nat) : Nat → List ChatMessage → Except String (List StreamEvent) :=
  fun i _ =>
    if i ≤ n then .ok [{ tool_calls := [deltaOfCall 0 fxCallAdd], finish_reason := some "tool_calls" }]
    else .ok [{ content := some "final", finish_reason := some "stop" }]

/-- A streaming LLM stub whose network call always rejects. -/
def fxStreamFail : Nat → List ChatMessage → Except String (List StreamEvent) :=
  fun _ _ => .error "network down"

/-- A non-streaming LLM stub: round 1 calls `s1`, round 2 calls `s2`, then a
final answer — both calls return structured content and a meta path. -/
def fxLlmSticky : Nat → List ChatMessage → Except String LLMMessage :=
  fun i _ =>
    if i == 1 then .ok { content := some "", tool_calls := [⟨"c1", "function", "s1", "\x7b\x7d"⟩] }
    else if i == 2 then .ok { content := some "", tool_calls := [⟨"c2", "function", "s2", "\x7b\x7d"⟩] }
    else .ok { content := some "final" }

/-- A non-streaming LLM stub: round 1 calls the widget-field tool `tw`, then a
final answer. -/
def fxLlmWidget : Nat → List ChatMessage → Except String LLMMessage :=
  fun i _ =>
    if i == 1 then .ok { content := some "", tool_calls := [⟨"c1", "function", "tw", "\x7b\x7d"⟩] }
    else .ok { content := some "final" }

/-- A decision stub for the driver-equivalence counterexample: round 1 streams
content `thinking` and calls `tsc` with an empty arguments string, round 2
answers `done`. -/
def fxDecCx : Nat → List ChatMessage → Except String Decision :=
  fun i _ =>
    if i == 1 then .ok { content := some "thinking", toolCalls := [⟨"c1", "tsc", ""⟩] }
    else .ok { content := some "done" }

/-- A decision stub satisfying the amended equivalence provisos: round 1 has
no content and calls `add` with arguments `"{}"`, round 2 answers `done`. -/
def fxDecOk : Nat → List ChatMessage → Except String Decision :=
  fun i _ =>
    if i == 1 then .ok { toolCalls := [fxCallAdd] }
    else .ok { content := some "done" }

/-- A decision stub for the streaming sticky test: round 1 calls `s1`, round 2
calls `s2` (both return structured content and a meta path), round 3 answers
`final`. -/
def fxDecSticky : Nat → List ChatMessage → Except String Decision :=
  fun i _ =>
    if i == 1 then .ok { toolCalls := [⟨"c1", "s1", "\x7b\x7d"⟩] }
    else if i == 2 then .ok { toolCalls := [⟨"c2", "s2", "\x7b\x7d"⟩] }
    else .ok { content := some "final" }

/-- A one-row session history. -/
def fxRows : List DbRow :=
  [⟨"m1", "user", "hi", none, none⟩]

/-- A session history whose middle message contains the reset marker. -/
def fxRowsMarked : List DbRow :=
  [⟨"m1", "user", "old", none, none⟩,
   ⟨"m2", "user", "x -- IGNORE CONVERSATION BEFORE THIS LINE -- y", none, none⟩,
   ⟨"m3", "user", "new", none, none⟩]

/-! Helper lemmas. -/

lemma orO_none {α : Type} (a : Option α) : orO a none = a := by
  cases a <;> rfl

lemma orO_assoc {α : Type} (a b c : Option α) :
    orO (orO a b) c = orO a (orO b c) := by
  cases a <;> rfl

lemma firstSome_cons {α : Type} (o : Option α) (l : List (Option α)) :
    firstSome (o :: l) = orO o (firstSome l) := by
  cases o <;> rfl

lemma applyStickyFromResult_messages (st : ExecState) (r : ToolResult) :
    (applyStickyFromResult st r).messages = st.messages := by
  cases hm : r._meta <;> cases hf : st.finalMeta <;>
    cases hs : r.structuredContent <;> cases hsc : st.finalStructuredContent <;>
      simp [applyStickyFromResult, hm, hf, hs, hsc]

lemma execToolCall_appends (env : Env) (auth : AuthInfo) (st : ExecState)
    (tc : ToolCall) :
    ∃ msg, (execToolCall env auth st tc).messages = st.messages ++ [msg] := by
  unfold execToolCall
  split
  · exact ⟨_, rfl⟩
  · split
    · exact ⟨_, rfl⟩
    · split
      · exact ⟨_, rfl⟩
      · next r hh =>
        exact ⟨toolOkMessage tc (renderResultText r),
          by simp [applyStickyFromResult_messages]⟩

lemma execToolCalls_length (env : Env) (auth : AuthInfo) :
    ∀ (tcs : List ToolCall) (st : ExecState),
      (execToolCalls env auth st tcs).messages.length =
        st.messages.length + tcs.length := by
  intro tcs
  induction tcs with
  | nil => intro st; simp [execToolCalls]
  | cons tc rest ih =>
    intro st
    show (execToolCalls env auth (execToolCall env auth st tc) rest).messages.length = _
    rw [ih]
    obtain ⟨msg, hm⟩ := execToolCall_appends env auth st tc
    simp [hm]
    omega

lemma execToolCallsStream_cons (env : Env) (auth : AuthInfo) (st : ExecState)
    (tc : ToolCall) (rest : List ToolCall) :
    execToolCallsStream env auth st (tc :: rest) =
      ((execToolCallStream env auth st tc).1 ++
         (execToolCallsStream env auth (execToolCallStream env auth st tc).2 rest).1,
       (execToolCallsStream env auth (execToolCallStream env auth st tc).2 rest).2) := by
  show (match execToolCallStream env auth st tc with
        | (cs, st1) =>
          match execToolCallsStream env auth st1 rest with
          | (cs2, st2) => (cs ++ cs2, st2)) = _
  rcases hp : execToolCallStream env auth st tc with ⟨cs, st1⟩
  rcases hq : execToolCallsStream env auth st1 rest with ⟨cs2, st2⟩
  simp [hp, hq]

lemma execToolCallStream_appends (env : Env) (auth : AuthInfo) (st : ExecState)
    (tc : ToolCall) :
    ∃ msg, (execToolCallStream env auth st tc).2.messages = st.messages ++ [msg] := by
  unfold execToolCallStream
  split
  · exact ⟨_, rfl⟩
  · split
    · exact ⟨_, rfl⟩
    · split
      · exact ⟨_, rfl⟩
      · next r hh =>
        exact ⟨toolOkMessage tc (renderResultText r),
          by simp [applyStickyFromResult_messages]⟩

lemma execToolCallsStream_length (env : Env) (auth : AuthInfo) :
    ∀ (tcs : List ToolCall) (st : ExecState),
      (execToolCallsStream env auth st tcs).2.messages.length =
        st.messages.length + tcs.length := by
  intro tcs
  induction tcs with
  | nil => intro st; simp [execToolCallsStream]
  | cons tc rest ih =>
    intro st
    rw [execToolCallsStream_cons]
    show (execToolCallsStream env auth (execToolCallStream env auth st tc).2 rest).2.messages.length = _
    rw [ih]
    obtain ⟨msg, hm⟩ := execToolCallStream_appends env auth st tc
    simp [hm]
    omega

/-- C1.  For every tool call executed in a round, exactly one tool message is
appended to the history, carrying the matching `tool_call_id` (and the tool
name): the rendered result text when lookup, parse and handler all succeed;
the serialization of `{error: "Tool <name> not found"}` when the name is
unregistered; and the serialization of an error object including the original
error's message on a parse failure or handler throw.  Moreover a whole batch
of calls appends exactly one tool message per call — the executor is a total
function, so the loop never receives an unhandled exception from a tool
call and the run continues.  The same append and trichotomy hold for the
streaming driver's executor, whose only differences are that an empty
reassembled arguments string is not parsed (the handler receives `{}`) and
that a `tool_result` chunk may additionally be yielded; its batches likewise
append exactly one tool message per call. -/
theorem spec_c1_tool_message_per_call (env : Env) (auth : AuthInfo)
    (st : ExecState) (tc : ToolCall) :
    (∃ c : String,
      (execToolCall env auth st tc).messages =
        st.messages ++
          [{ role := "tool", content := c, tool_call_id := some tc.id,
             name := some tc.name }] ∧
      ((env.findTool tc.name = none ∧
          c = jsonErrorString ("Tool " ++ tc.name ++ " not found")) ∨
       (∃ tool, env.findTool tc.name = some tool ∧
        ((∃ e, env.parseJson tc.arguments = .error e ∧
            c = jsonErrorString ("Error executing tool: " ++ e)) ∨
         (∃ args, env.parseJson tc.arguments = .ok args ∧
          ((∃ e, tool.handler args auth = .error e ∧
              c = jsonErrorString ("Error executing tool: " ++ e)) ∨
           (∃ r, tool.handler args auth = .ok r ∧
              c = renderResultText r)))))))
    ∧ (∀ tcs : List ToolCall,
        (execToolCalls env auth st tcs).messages.length =
          st.messages.length + tcs.length)
    ∧ (∃ c : String,
      (execToolCallStream env auth st tc).2.messages =
        st.messages ++
          [{ role := "tool", content := c, tool_call_id := some tc.id,
             name := some tc.name }] ∧
      ((env.findTool tc.name = none ∧
          c = jsonErrorString ("Tool " ++ tc.name ++ " not found")) ∨
       (∃ tool, env.findTool tc.name = some tool ∧
        ((∃ e, (if tc.arguments != "" then env.parseJson tc.arguments
                else Except.ok (Json.obj [])) = .error e ∧
            c = jsonErrorString ("Error executing tool: " ++ e)) ∨
         (∃ args, (if tc.arguments != "" then env.parseJson tc.arguments
                   else Except.ok (Json.obj [])) = .ok args ∧
          ((∃ e, tool.handler args auth = .error e ∧
              c = jsonErrorString ("Error executing tool: " ++ e)) ∨
           (∃ r, tool.handler args auth = .ok r ∧
              c = renderResultText r)))))))
    ∧ ∀ tcs : List ToolCall,
        (execToolCallsStream env auth st tcs).2.messages.length =
          st.messages.length + tcs.length := by
  refine ⟨?_, ?_, ?_, ?_⟩
  · unfold execToolCall
    split
    · next hfind => exact ⟨_, rfl, Or.inl ⟨hfind, rfl⟩⟩
    · next tool hfind =>
      split
      · next e hparse =>
        exact ⟨_, rfl, Or.inr ⟨tool, hfind, Or.inl ⟨e, hparse, rfl⟩⟩⟩
      · next args hparse =>
        split
        · next e hh =>
          exact ⟨_, rfl,
            Or.inr ⟨tool, hfind, Or.inr ⟨args, hparse, Or.inl ⟨e, hh, rfl⟩⟩⟩⟩
        · next r hh =>
          exact ⟨renderResultText r,
            by simp [applyStickyFromResult_messages, toolOkMessage],
            Or.inr ⟨tool, hfind, Or.inr ⟨args, hparse, Or.inr ⟨r, hh, rfl⟩⟩⟩⟩
  · intro tcs
    exact execToolCalls_length env auth tcs st
  · unfold execToolCallStream
    split
    · next hfind => exact ⟨_, rfl, Or.inl ⟨hfind, rfl⟩⟩
    · next tool hfind =>
      split
      · next e hparse =>
        exact ⟨_, rfl, Or.inr ⟨tool, hfind, Or.inl ⟨e, hparse, rfl⟩⟩⟩
      · next args hparse =>
        split
        · next e hh =>
          exact ⟨_, rfl,
            Or.inr ⟨tool, hfind, Or.inr ⟨args, hparse, Or.inl ⟨e, hh, rfl⟩⟩⟩⟩
        · next r hh =>
          exact ⟨renderResultText r,
            by simp [applyStickyFromResult_messages, toolOkMessage],
            Or.inr ⟨tool, hfind, Or.inr ⟨args, hparse, Or.inr ⟨r, hh, rfl⟩⟩⟩⟩
  · intro tcs
    exact execToolCallsStream_length env auth tcs st

/-- C2.  Both drivers perform at most (and, when tool calls keep coming,
exactly) 10 LLM rounds.  With a stub that requests a tool on every round the
run fails with the max-iterations error after exactly 10 rounds: the final
history holds the initial message plus 10 rounds of (assistant + tool)
appends, and no partial result (buffered) or `done`/partial chunk sequence
(streaming) is returned.  A stub that would answer on round 11 still fails
(round 11 never runs), while a stub that answers on round 10 succeeds (round
10 does run). -/
theorem spec_c2_iteration_cap :
    (getChatCompletionModel fxEnv fxLlmAlways fxInit "u").result =
      .error "Failed to get chat completion: Maximum tool call iterations exceeded"
    ∧ (getChatCompletionModel fxEnv fxLlmAlways fxInit "u").messages.length = 21
    ∧ (getChatCompletionModel fxEnv (fxLlmUpTo 10) fxInit "u").result =
      .error "Failed to get chat completion: Maximum tool call iterations exceeded"
    ∧ (getChatCompletionModel fxEnv (fxLlmUpTo 9) fxInit "u").result =
      .ok { content := "final" }
    ∧ (streamChatCompletionModel fxEnv fxStreamAlways fxInit "u").error =
      some "Failed to stream chat completion: Maximum tool call iterations exceeded"
    ∧ ((streamChatCompletionModel fxEnv fxStreamAlways fxInit "u").chunks.all
        (fun c => !isDoneChunk c)) = true
    ∧ (streamChatCompletionModel fxEnv fxStreamAlways fxInit "u").messages.length = 21
    ∧ (streamChatCompletionModel fxEnv (fxStreamUpTo 10) fxInit "u").error =
      some "Failed to stream chat completion: Maximum tool call iterations exceeded"
    ∧ (streamChatCompletionModel fxEnv (fxStreamUpTo 9) fxInit "u").error = none
    ∧ contentConcat (streamChatCompletionModel fxEnv (fxStreamUpTo 9) fxInit "u").chunks
        = "final" := by
  refine ⟨rfl, by decide, rfl, rfl, rfl, by decide, by decide, rfl, rfl, rfl⟩

lemma list_getD_append_len {α : Type} (l : List α) (x d : α) :
    (l ++ [x]).getD l.length d = x := by
  induction l with
  | nil => rfl
  | cons a t ih => simp [ih]

lemma list_set_append_len {α : Type} (l : List α) (x y : α) :
    (l ++ [x]).set l.length y = l ++ [y] := by
  induction l with
  | nil => rfl
  | cons a t ih => simp [ih]

lemma optTruthy_false {o : Option String} (h : optTruthy o = false) :
    o.getD "" = "" := by
  simpa [optTruthy] using h

lemma applyToolCallDelta_at_length (tcs : List ToolCall) (d : ToolCallDelta)
    (f : FunctionDelta) (hf : d.function = some f) (hi : d.index = some tcs.length) :
    applyToolCallDelta tcs d =
      .ok (tcs ++ [mergeDeltaIntoCall ⟨d.id.getD "", "", ""⟩ d f]) := by
  simp only [applyToolCallDelta, hf, hi, Nat.le_refl, if_true, List.length_append,
    List.length_singleton]
  rw [if_pos (by omega)]
  rw [list_getD_append_len, list_set_append_len]

/-- C3.  Streaming delta reassembly.  Concretely, the claim's delta sequence
reassembles to the ToolCallRef `{id: "a", name: "f", arguments: "{\"x\":1}"}`.
Generally: a delta whose index equals the current list length appends a new
entry (initialized from `delta.id || ""`) and merges into it; and a merge
always appends the delta's arguments text while overwriting `id`/`name`
exactly when they are present (truthy) in the delta, keeping the previous
values otherwise. -/
theorem spec_c3_delta_reassembly :
    (applyToolCallDeltas []
      [{ index := some 0, id := some "a", function := some { name := some "f" } },
       { index := some 0, function := some { arguments := some "\x7b\"x\":" } },
       { index := some 0, function := some { arguments := some "1\x7d" } }] =
      .ok [⟨"a", "f", "\x7b\"x\":1\x7d"⟩])
    ∧ (∀ (tcs : List ToolCall) (d : ToolCallDelta) (f : FunctionDelta),
        d.function = some f → d.index = some tcs.length →
        applyToolCallDelta tcs d =
          .ok (tcs ++ [mergeDeltaIntoCall ⟨d.id.getD "", "", ""⟩ d f]))
    ∧ (∀ (tc : ToolCall) (d : ToolCallDelta) (f : FunctionDelta),
        (mergeDeltaIntoCall tc d f).arguments = tc.arguments ++ f.arguments.getD ""
        ∧ (optTruthy d.id = true → (mergeDeltaIntoCall tc d f).id = d.id.getD "")
        ∧ (optTruthy d.id = false → (mergeDeltaIntoCall tc d f).id = tc.id)
        ∧ (optTruthy f.name = true → (mergeDeltaIntoCall tc d f).name = f.name.getD "")
        ∧ (optTruthy f.name = false → (mergeDeltaIntoCall tc d f).name = tc.name)) := by
  refine ⟨rfl, ?_, ?_⟩
  · intro tcs d f hf hi
    exact applyToolCallDelta_at_length tcs d f hf hi
  · intro tc d f
    refine ⟨?_, ?_, ?_, ?_, ?_⟩ <;>
      cases hid : optTruthy d.id <;> cases hn : optTruthy f.name <;>
        cases ha : optTruthy f.arguments <;>
          simp [mergeDeltaIntoCall, hid, hn, ha, optTruthy_false,
            String.append_empty]

/-- Witness for C3: the general append clause evaluated at the claim's first
delta against the empty in-progress list. -/
theorem spec_c3_witness :
    applyToolCallDelta []
      { index := some 0, id := some "a", function := some { name := some "f" } } =
      .ok [mergeDeltaIntoCall ⟨"a", "", ""⟩
            { index := some 0, id := some "a", function := some { name := some "f" } }
            { name := some "f" }] :=
  spec_c3_delta_reassembly.2.1 [] _ _ rfl rfl

lemma emitEventContent_eq (s : RoundStream) (ev : StreamEvent) :
    emitEventContent s ev =
      { s with
        accumulatedContent := s.accumulatedContent ++ truthyText ev.content
        chunks := s.chunks ++ contentChunkList ev.content } := by
  cases hc : ev.content with
  | none => simp [emitEventContent, truthyText, contentChunkList, optTruthy, hc,
      String.append_empty]
  | some c =>
    by_cases h : c = ""
    · simp [emitEventContent, truthyText, contentChunkList, optTruthy, hc, h,
        String.append_empty]
    · simp [emitEventContent, truthyText, contentChunkList, optTruthy, hc, h]

lemma processEvents_no_tool_deltas :
    ∀ (evs : List StreamEvent) (s : RoundStream),
      (∀ ev ∈ evs, ev.tool_calls = []) →
      processEvents s evs =
        ({ accumulatedContent := s.accumulatedContent ++ eventsContentText evs
           toolCalls := s.toolCalls
           hasToolCalls :=
             s.hasToolCalls ||
               evs.any (fun ev => ev.finish_reason == some "tool_calls")
           chunks := s.chunks ++ eventsContentChunks evs }, none) := by
  intro evs
  induction evs with
  | nil =>
    intro s _
    simp [processEvents, eventsContentText, eventsContentChunks,
      String.append_empty]
  | cons ev rest ih =>
    intro s hev
    have hhead : ev.tool_calls = [] := hev ev (by simp)
    have htail : ∀ e ∈ rest, e.tool_calls = [] := fun e he => hev e (by simp [he])
    show processEvents s (ev :: rest) = _
    unfold processEvents
    rw [hhead]
    simp only [List.isEmpty_nil, if_true]
    by_cases hfin : (ev.finish_reason == some "tool_calls") = true
    · rw [show applyFinish s ev = { s with hasToolCalls := true } from by
        simp [applyFinish, hfin]]
      rw [ih _ htail, emitEventContent_eq]
      simp [eventsContentText, eventsContentChunks, hfin, String.append_assoc]
    · rw [show applyFinish s ev = s from by simp [applyFinish, hfin]]
      rw [ih _ htail, emitEventContent_eq]
      simp only [List.any_cons, hfin, Bool.false_or]
      simp [eventsContentText, eventsContentChunks, String.append_assoc]

/-- C4.  A round whose LLM response (non-streaming) or stream carries zero
tool calls terminates the loop successfully in that same round: no tool (or
any other) message is appended to the history, and the round's content is
returned (non-streaming: `message.content || ""`) or has been streamed as the
round's `content` chunks, followed only by the optional `metadata` chunk and
`done`. -/
theorem spec_c4_zero_tool_calls (env : Env) (auth : AuthInfo)
    (llmB : Nat → List ChatMessage → Except String LLMMessage)
    (llmS : Nat → List ChatMessage → Except String (List StreamEvent))
    (fuel iter : Nat) (st : ExecState) (m : LLMMessage)
    (evs : List StreamEvent) :
    (llmB iter st.messages = .ok m → m.tool_calls = [] →
      chatLoop env llmB auth (fuel + 1) iter st =
        ⟨st.messages,
         .ok { content := m.content.getD ""
               _meta := st.finalMeta
               structuredContent := st.finalStructuredContent
               widgetId := st.finalWidgetId }⟩)
    ∧ (llmS iter st.messages = .ok evs → (∀ ev ∈ evs, ev.tool_calls = []) →
        streamLoop env llmS auth (fuel + 1) iter st =
          ⟨eventsContentChunks evs ++
             metadataChunkList st.finalMeta st.finalStructuredContent st.finalWidgetId
             ++ [.done none],
           st.messages, st.finalMeta, st.finalStructuredContent,
           st.finalWidgetId, none⟩) := by
  constructor
  · intro h hm
    unfold chatLoop
    rw [h]
    simp [hm]
  · intro h hev
    unfold streamLoop
    rw [h]
    simp only [processEvents_no_tool_deltas evs {} hev]
    simp

/-- Witness for C4: a concrete single-round run through both drivers with an
LLM stub answering `final` and no tool calls. -/
theorem spec_c4_witness :
    chatLoop fxEnv (fxLlmUpTo 0) ⟨"", "u"⟩ (9 + 1) 1 { messages := fxInit } =
      ⟨fxInit, .ok { content := "final" }⟩
    ∧ streamLoop fxEnv (fxStreamUpTo 0) ⟨"", "u"⟩ (9 + 1) 1 { messages := fxInit } =
        ⟨eventsContentChunks [{ content := some "final", finish_reason := some "stop" }]
           ++ metadataChunkList none none none ++ [.done none],
         fxInit, none, none, none, none⟩ :=
  ⟨(spec_c4_zero_tool_calls fxEnv ⟨"", "u"⟩ (fxLlmUpTo 0) (fxStreamUpTo 0) 9 1
      { messages := fxInit } { content := some "final" }
      [{ content := some "final", finish_reason := some "stop" }]).1 rfl rfl,
   (spec_c4_zero_tool_calls fxEnv ⟨"", "u"⟩ (fxLlmUpTo 0) (fxStreamUpTo 0) 9 1
      { messages := fxInit } { content := some "final" }
      [{ content := some "final", finish_reason := some "stop" }]).2 rfl
      (by intro ev hev; simp at hev; simp [hev])⟩

lemma selectPrev_fold_no_marker :
    ∀ (rows acc : List DbRow),
      (∀ r ∈ rows, strIncludes r.content resetMarker = false) →
      rows.foldl
        (fun prev msg =>
          (if strIncludes msg.content resetMarker then [] else prev) ++ [msg])
        acc = acc ++ rows := by
  intro rows
  induction rows with
  | nil => intro acc _; simp
  | cons r rest ih =>
    intro acc h
    have hr : strIncludes r.content resetMarker = false := h r (by simp)
    have hrest : ∀ x ∈ rest, strIncludes x.content resetMarker = false :=
      fun x hx => h x (by simp [hx])
    have hacc : (if strIncludes r.content resetMarker then ([] : List DbRow) else acc)
        = acc := by simp [hr]
    simp only [List.foldl_cons, hacc]
    rw [ih (acc ++ [r]) hrest]
    simp

/-- C9.  History reset marker: when no historical message's content contains
the marker, the selected history is the full ordered history unchanged; when
some messages contain it, only the last such message matters and the selected
history is that message followed by everything after it — everything strictly
before the last marker message is dropped, so the conversation starts fresh
from that point. -/
theorem spec_c9_history_reset :
    (∀ rows : List DbRow,
      (∀ r ∈ rows, strIncludes r.content resetMarker = false) →
      selectPreviousMessages rows = rows)
    ∧ (∀ (pre : List DbRow) (m : DbRow) (post : List DbRow),
        strIncludes m.content resetMarker = true →
        (∀ r ∈ post, strIncludes r.content resetMarker = false) →
        selectPreviousMessages (pre ++ m :: post) = m :: post) := by
  constructor
  · intro rows h
    unfold selectPreviousMessages
    rw [selectPrev_fold_no_marker rows [] h]
    simp
  · intro pre m post hm hpost
    unfold selectPreviousMessages
    rw [List.foldl_append]
    simp only [List.foldl_cons, hm, if_true, List.nil_append]
    rw [selectPrev_fold_no_marker post [m] hpost]
    simp

/-- Witness for C9: a three-message history whose middle message contains the
marker is truncated to the marker message and its successor. -/
theorem spec_c9_witness :
    selectPreviousMessages fxRowsMarked =
      [⟨"m2", "user", "x -- IGNORE CONVERSATION BEFORE THIS LINE -- y", none, none⟩,
       ⟨"m3", "user", "new", none, none⟩] :=
  spec_c9_history_reset.2 [⟨"m1", "user", "old", none, none⟩]
    ⟨"m2", "user", "x -- IGNORE CONVERSATION BEFORE THIS LINE -- y", none, none⟩
    [⟨"m3", "user", "new", none, none⟩] (by decide) (by decide)

/-- C10.  In the Streaming Driver a tool call whose reassembled arguments
string is empty is executed by handing the handler the empty object `{}`
without parsing (no parse-error tool message; the appended tool message is the
handler's own success or error message), whereas the non-streaming Completion
Driver always parses the raw arguments string, so an empty arguments string
takes the argument-parse-failure path there. -/
theorem spec_c10_empty_arguments (env : Env) (auth : AuthInfo) (st : ExecState)
    (tc : ToolCall) (tool : ToolDefinition)
    (hargs : tc.arguments = "") (hfind : env.findTool tc.name = some tool) :
    ((∃ r, tool.handler (.obj []) auth = .ok r ∧
        execToolCallStream env auth st tc =
          ([.tool_result (renderResultText r)],
           { applyStickyFromResult st r with
             messages := (applyStickyFromResult st r).messages ++
               [toolOkMessage tc (renderResultText r)] }))
     ∨ (∃ e, tool.handler (.obj []) auth = .error e ∧
        execToolCallStream env auth st tc =
          ([.tool_result (jsonErrorString ("Error executing tool: " ++ e))],
           { st with messages := st.messages ++ [toolErrorMessage tc e] })))
    ∧ (∀ e, env.parseJson "" = .error e →
        execToolCall env auth st tc =
          { st with messages := st.messages ++ [toolErrorMessage tc e] }) := by
  constructor
  · cases hh : tool.handler (.obj []) auth with
    | error e =>
      refine Or.inr ⟨e, rfl, ?_⟩
      simp [execToolCallStream, hfind, hargs, hh]
    | ok r =>
      refine Or.inl ⟨r, rfl, ?_⟩
      simp [execToolCallStream, hfind, hargs, hh]
  · intro e hpe
    unfold execToolCall
    rw [hfind, hargs, hpe]

/-- Witness for C10: the `add` tool of the fixture registry, called with an
empty arguments string, succeeds under the streaming executor (handler sees
`{}`) and produces the parse-failure tool message under the buffered one. -/
theorem spec_c10_witness :
    ((∃ r, fxHandlerAdd (.obj []) ⟨"", "u"⟩ = .ok r ∧
        execToolCallStream fxEnv ⟨"", "u"⟩ { messages := [] } ⟨"c1", "add", ""⟩ =
          ([.tool_result (renderResultText r)],
           { applyStickyFromResult { messages := [] } r with
             messages := (applyStickyFromResult { messages := [] } r).messages ++
               [toolOkMessage ⟨"c1", "add", ""⟩ (renderResultText r)] }))
     ∨ (∃ e, fxHandlerAdd (.obj []) ⟨"", "u"⟩ = .error e ∧
        execToolCallStream fxEnv ⟨"", "u"⟩ { messages := [] } ⟨"c1", "add", ""⟩ =
          ([.tool_result (jsonErrorString ("Error executing tool: " ++ e))],
           { messages := [toolErrorMessage ⟨"c1", "add", ""⟩ e] })))
    ∧ execToolCall fxEnv ⟨"", "u"⟩ { messages := [] } ⟨"c1", "add", ""⟩ =
        { messages :=
            [toolErrorMessage ⟨"c1", "add", ""⟩ "Unexpected end of JSON input"] } :=
  ⟨(spec_c10_empty_arguments fxEnv ⟨"", "u"⟩ { messages := [] } ⟨"c1", "add", ""⟩
      ⟨"add", fxHandlerAdd⟩ rfl rfl).1,
   (spec_c10_empty_arguments fxEnv ⟨"", "u"⟩ { messages := [] } ⟨"c1", "add", ""⟩
      ⟨"add", fxHandlerAdd⟩ rfl rfl).2 "Unexpected end of JSON input" rfl⟩

lemma applySticky_meta (st : ExecState) (r : ToolResult) :
    (applyStickyFromResult st r).finalMeta = orO st.finalMeta r._meta := by
  cases hm : r._meta <;> cases hf : st.finalMeta <;>
    cases hs : r.structuredContent <;> cases hsc : st.finalStructuredContent <;>
      simp [applyStickyFromResult, orO, hm, hf, hs, hsc]

lemma applySticky_structured (st : ExecState) (r : ToolResult) :
    (applyStickyFromResult st r).finalStructuredContent =
      orO st.finalStructuredContent r.structuredContent := by
  cases hm : r._meta <;> cases hf : st.finalMeta <;>
    cases hs : r.structuredContent <;> cases hsc : st.finalStructuredContent <;>
      simp [applyStickyFromResult, orO, hm, hf, hs, hsc]

lemma applySticky_widget (st : ExecState) (r : ToolResult) :
    (applyStickyFromResult st r).finalWidgetId =
      (match st.finalMeta with
       | some _ => st.finalWidgetId
       | none =>
         match r._meta with
         | none => st.finalWidgetId
         | some m => orO (metaWidgetPath m) st.finalWidgetId) := by
  cases hm : r._meta <;> cases hf : st.finalMeta <;>
    cases hs : r.structuredContent <;> cases hsc : st.finalStructuredContent <;>
      simp [applyStickyFromResult, orO, hm, hf, hs, hsc] <;>
        cases hp : metaWidgetPath _ <;> simp [hp]

lemma execToolCall_sticky (env : Env) (auth : AuthInfo) (st : ExecState)
    (tc : ToolCall) :
    (execToolCall env auth st tc).finalMeta =
        orO st.finalMeta (metaOccurrence (callResult env auth tc))
    ∧ (execToolCall env auth st tc).finalStructuredContent =
        orO st.finalStructuredContent (structuredOccurrence (callResult env auth tc))
    ∧ (execToolCall env auth st tc).finalWidgetId =
        (match st.finalMeta with
         | some _ => st.finalWidgetId
         | none =>
           match metaOccurrence (callResult env auth tc) with
           | none => st.finalWidgetId
           | some m => orO (metaWidgetPath m) st.finalWidgetId) := by
  unfold execToolCall callResult
  split
  · exact ⟨by simp [metaOccurrence, orO_none],
      by simp [structuredOccurrence, orO_none],
      by cases st.finalMeta <;> simp [metaOccurrence]⟩
  · split
    · exact ⟨by simp [metaOccurrence, orO_none],
        by simp [structuredOccurrence, orO_none],
        by cases st.finalMeta <;> simp [metaOccurrence]⟩
    · split
      · exact ⟨by simp [metaOccurrence, orO_none],
          by simp [structuredOccurrence, orO_none],
          by cases st.finalMeta <;> simp [metaOccurrence]⟩
      · next r hh =>
        exact ⟨by simp [metaOccurrence, applySticky_meta],
          by simp [structuredOccurrence, applySticky_structured],
          by simp [metaOccurrence, applySticky_widget]⟩

lemma execToolCalls_sticky (env : Env) (auth : AuthInfo) :
    ∀ (tcs : List ToolCall) (st : ExecState),
      (execToolCalls env auth st tcs).finalMeta =
          orO st.finalMeta
            (firstSome (tcs.map fun tc => metaOccurrence (callResult env auth tc)))
      ∧ (execToolCalls env auth st tcs).finalStructuredContent =
          orO st.finalStructuredContent
            (firstSome (tcs.map fun tc => structuredOccurrence (callResult env auth tc)))
      ∧ (execToolCalls env auth st tcs).finalWidgetId =
          (match st.finalMeta with
           | some _ => st.finalWidgetId
           | none =>
             match firstSome (tcs.map fun tc => metaOccurrence (callResult env auth tc)) with
             | none => st.finalWidgetId
             | some m => orO (metaWidgetPath m) st.finalWidgetId) := by
  intro tcs
  induction tcs with
  | nil =>
    intro st
    exact ⟨by simp [execToolCalls, firstSome, orO_none],
      by simp [execToolCalls, firstSome, orO_none],
      by cases st.finalMeta <;> simp [execToolCalls, firstSome]⟩
  | cons tc rest ih =>
    intro st
    have hcons :
        execToolCalls env auth st (tc :: rest) =
          execToolCalls env auth (execToolCall env auth st tc) rest := rfl
    obtain ⟨h1, h2, h3⟩ := execToolCall_sticky env auth st tc
    obtain ⟨ih1, ih2, ih3⟩ := ih (execToolCall env auth st tc)
    refine ⟨?_, ?_, ?_⟩
    · rw [hcons, ih1, h1]
      simp [firstSome_cons, orO_assoc]
    · rw [hcons, ih2, h2]
      simp [firstSome_cons, orO_assoc]
    · rw [hcons, ih3, h1, h3]
      cases hm0 : st.finalMeta <;>
        cases hocc : metaOccurrence (callResult env auth tc) <;>
          simp [firstSome_cons, orO, hm0, hocc]

lemma execToolCallStream_sticky (env : Env) (auth : AuthInfo) (st : ExecState)
    (tc : ToolCall) :
    (execToolCallStream env auth st tc).2.finalMeta =
        orO st.finalMeta (metaOccurrence (callResultStream env auth tc))
    ∧ (execToolCallStream env auth st tc).2.finalStructuredContent =
        orO st.finalStructuredContent
          (structuredOccurrence (callResultStream env auth tc))
    ∧ (execToolCallStream env auth st tc).2.finalWidgetId =
        (match st.finalMeta with
         | some _ => st.finalWidgetId
         | none =>
           match metaOccurrence (callResultStream env auth tc) with
           | none => st.finalWidgetId
           | some m => orO (metaWidgetPath m) st.finalWidgetId) := by
  unfold execToolCallStream callResultStream
  split
  · exact ⟨by simp [metaOccurrence, orO_none],
      by simp [structuredOccurrence, orO_none],
      by cases st.finalMeta <;> simp [metaOccurrence]⟩
  · split
    · exact ⟨by simp [metaOccurrence, orO_none],
        by simp [structuredOccurrence, orO_none],
        by cases st.finalMeta <;> simp [metaOccurrence]⟩
    · split
      · exact ⟨by simp [metaOccurrence, orO_none],
          by simp [structuredOccurrence, orO_none],
          by cases st.finalMeta <;> simp [metaOccurrence]⟩
      · next r hh =>
        exact ⟨by simp [metaOccurrence, applySticky_meta],
          by simp [structuredOccurrence, applySticky_structured],
          by simp [metaOccurrence, applySticky_widget]⟩

lemma execToolCallsStream_sticky (env : Env) (auth : AuthInfo) :
    ∀ (tcs : List ToolCall) (st : ExecState),
      (execToolCallsStream env auth st tcs).2.finalMeta =
          orO st.finalMeta
            (firstSome (tcs.map fun tc => metaOccurrence (callResultStream env auth tc)))
      ∧ (execToolCallsStream env auth st tcs).2.finalStructuredContent =
          orO st.finalStructuredContent
            (firstSome (tcs.map fun tc => structuredOccurrence (callResultStream env auth tc)))
      ∧ (execToolCallsStream env auth st tcs).2.finalWidgetId =
          (match st.finalMeta with
           | some _ => st.finalWidgetId
           | none =>
             match firstSome (tcs.map fun tc => metaOccurrence (callResultStream env auth tc)) with
             | none => st.finalWidgetId
             | some m => orO (metaWidgetPath m) st.finalWidgetId) := by
  intro tcs
  induction tcs with
  | nil =>
    intro st
    exact ⟨by simp [execToolCallsStream, firstSome, orO_none],
      by simp [execToolCallsStream, firstSome, orO_none],
      by cases st.finalMeta <;> simp [execToolCallsStream, firstSome]⟩
  | cons tc rest ih =>
    intro st
    have hcons :
        (execToolCallsStream env auth st (tc :: rest)).2 =
          (execToolCallsStream env auth (execToolCallStream env auth st tc).2 rest).2 := by
      rw [execToolCallsStream_cons]
    obtain ⟨h1, h2, h3⟩ := execToolCallStream_sticky env auth st tc
    obtain ⟨ih1, ih2, ih3⟩ := ih (execToolCallStream env auth st tc).2
    refine ⟨?_, ?_, ?_⟩
    · rw [hcons, ih1, h1]
      simp [firstSome_cons, orO_assoc]
    · rw [hcons, ih2, h2]
      simp [firstSome_cons, orO_assoc]
    · rw [hcons, ih3, h1, h3]
      cases hm0 : st.finalMeta <;>
        cases hocc : metaOccurrence (callResultStream env auth tc) <;>
          simp [firstSome_cons, orO, hm0, hocc]

/-- Counterexample for C5.  The fixture run makes one tool call whose result
carries the non-empty `widgetId` field `"w"` (the first — and only — non-empty
widgetId occurrence across the run's tool calls, as `specFinalWidgetId`
computes), yet the final result's `widgetId` is `none`: the drivers never read
the `widgetId` field of a tool result, contradicting the claim that the final
`widgetId` is taken from the first non-empty occurrence. -/
theorem spec_c5_counterexample :
    (getChatCompletionModel fxEnv fxLlmWidget fxInit "u").result =
      .ok { content := "final", _meta := none, structuredContent := none,
            widgetId := none }
    ∧ fxHandlerWidget (.obj []) ⟨"", "u"⟩ = .ok fxWidgetResult
    ∧ fxWidgetResult.widgetId = some "w"
    ∧ specFinalWidgetId [fxWidgetResult] = some "w" :=
  ⟨rfl, rfl, rfl, rfl⟩

/-- C5, amended.  In both drivers the final `meta` and `structuredContent` are
each taken from the first present occurrence across the run's executed tool
calls, in order, and later occurrences are ignored; the final `widgetId` is
not taken from the tool results' `widgetId` fields but is derived from the
`path` property of the first captured meta (so a later meta's path is ignored
even when the first meta has no usable path).  The occurrences are the
successful results of each executor — for the streaming executor an empty
reassembled arguments string is not parsed and the handler receives `{}`.  In
particular — the claim's own test — when two sequential tool calls both
return non-empty `structuredContent`, the final `structuredContent` is the
first call's value: the concrete two-round fixture runs of both drivers
return the first call's structured content and widget path. -/
theorem spec_c5_amended_sticky :
    (∀ (env : Env) (auth : AuthInfo) (msgs : List ChatMessage) (tcs : List ToolCall),
      (execToolCalls env auth { messages := msgs } tcs).finalMeta =
          firstSome (tcs.map fun tc => metaOccurrence (callResult env auth tc))
      ∧ (execToolCalls env auth { messages := msgs } tcs).finalStructuredContent =
          firstSome (tcs.map fun tc => structuredOccurrence (callResult env auth tc))
      ∧ (execToolCalls env auth { messages := msgs } tcs).finalWidgetId =
          (match firstSome (tcs.map fun tc => metaOccurrence (callResult env auth tc)) with
           | none => none
           | some m => metaWidgetPath m))
    ∧ (∀ (env : Env) (auth : AuthInfo) (msgs : List ChatMessage) (tcs : List ToolCall),
      (execToolCallsStream env auth { messages := msgs } tcs).2.finalMeta =
          firstSome (tcs.map fun tc => metaOccurrence (callResultStream env auth tc))
      ∧ (execToolCallsStream env auth { messages := msgs } tcs).2.finalStructuredContent =
          firstSome (tcs.map fun tc => structuredOccurrence (callResultStream env auth tc))
      ∧ (execToolCallsStream env auth { messages := msgs } tcs).2.finalWidgetId =
          (match firstSome (tcs.map fun tc => metaOccurrence (callResultStream env auth tc)) with
           | none => none
           | some m => metaWidgetPath m))
    ∧ (getChatCompletionModel fxEnv fxLlmSticky fxInit "u").result =
        .ok { content := "final"
              _meta := some (.obj [("path", .str "w1")])
              structuredContent := some (.obj [("s", .str "one")])
              widgetId := some "w1" }
    ∧ (streamChatCompletionModel fxEnv (streamOfDec fxDecSticky) fxInit "u").error = none
    ∧ (streamChatCompletionModel fxEnv (streamOfDec fxDecSticky) fxInit "u").finalMeta =
        some (.obj [("path", .str "w1")])
    ∧ (streamChatCompletionModel fxEnv (streamOfDec fxDecSticky) fxInit "u").finalStructuredContent =
        some (.obj [("s", .str "one")])
    ∧ (streamChatCompletionModel fxEnv (streamOfDec fxDecSticky) fxInit "u").finalWidgetId =
        some "w1" := by
  refine ⟨?_, ?_, rfl, rfl, rfl, rfl, rfl⟩
  · intro env auth msgs tcs
    obtain ⟨h1, h2, h3⟩ :=
      execToolCalls_sticky env auth tcs { messages := msgs }
    refine ⟨by simpa [orO] using h1, by simpa [orO] using h2, ?_⟩
    rw [h3]
    cases firstSome (tcs.map fun tc => metaOccurrence (callResult env auth tc)) <;>
      simp [orO_none]
  · intro env auth msgs tcs
    obtain ⟨h1, h2, h3⟩ :=
      execToolCallsStream_sticky env auth tcs { messages := msgs }
    refine ⟨by simpa [orO] using h1, by simpa [orO] using h2, ?_⟩
    rw [h3]
    cases firstSome (tcs.map fun tc => metaOccurrence (callResultStream env auth tc)) <;>
      simp [orO_none]

lemma truthyText_eq_getD (c : Option String) : truthyText c = c.getD "" := by
  cases c with
  | none => rfl
  | some s =>
    by_cases h : s = "" <;> simp [truthyText, optTruthy, h]

lemma contentChunkList_of_empty {c : Option String} (h : truthyText c = "") :
    contentChunkList c = [] := by
  cases c with
  | none => rfl
  | some s =>
    by_cases hs : s = ""
    · simp [contentChunkList, optTruthy, hs]
    · exfalso
      apply hs
      simpa [truthyText, optTruthy, hs] using h

lemma contentConcat_append :
    ∀ a b : List StreamChunk,
      contentConcat (a ++ b) = contentConcat a ++ contentConcat b := by
  intro a b
  induction a with
  | nil => simp [contentConcat, String.empty_append]
  | cons c rest ih =>
    cases c <;> simp [contentConcat, ih, String.append_assoc]

lemma contentConcat_no_content :
    ∀ cs : List StreamChunk,
      (∀ c ∈ cs, isContentChunk c = false) → contentConcat cs = "" := by
  intro cs
  induction cs with
  | nil => intro _; rfl
  | cons c rest ih =>
    intro h
    have hc : isContentChunk c = false := h c (by simp)
    have hrest : ∀ x ∈ rest, isContentChunk x = false :=
      fun x hx => h x (List.mem_cons_of_mem _ hx)
    cases c <;> simp [contentConcat, ih hrest] <;> simp [isContentChunk] at hc

lemma contentConcat_metadataChunkList (m sc : Option Json) (w : Option String) :
    contentConcat (metadataChunkList m sc w) = "" := by
  unfold metadataChunkList
  split <;> rfl

lemma contentConcat_contentChunkList (c : Option String) :
    contentConcat (contentChunkList c) = truthyText c := by
  unfold contentChunkList truthyText
  split <;> simp [contentConcat, String.append_empty]

lemma mergeDelta_init (tc : ToolCall) (i : Nat) :
    mergeDeltaIntoCall ⟨tc.id, "", ""⟩ (deltaOfCall i tc)
      { name := some tc.name, arguments := some tc.arguments } = tc := by
  obtain ⟨tid, tname, targs⟩ := tc
  unfold mergeDeltaIntoCall deltaOfCall
  by_cases h1 : tid = "" <;> by_cases h2 : tname = "" <;>
    by_cases h3 : targs = "" <;>
      simp [optTruthy, h1, h2, h3, String.empty_append]

lemma applyToolCallDelta_ofCall (acc : List ToolCall) (tc : ToolCall) :
    applyToolCallDelta acc (deltaOfCall acc.length tc) = .ok (acc ++ [tc]) := by
  have h :=
    applyToolCallDelta_at_length acc (deltaOfCall acc.length tc)
      { name := some tc.name, arguments := some tc.arguments } rfl rfl
  rw [h]
  exact congrArg (fun x => Except.ok (acc ++ [x])) (mergeDelta_init tc acc.length)

lemma applyDeltasOfCalls :
    ∀ (calls acc : List ToolCall),
      applyToolCallDeltas acc (deltasOfCalls acc.length calls) = .ok (acc ++ calls) := by
  intro calls
  induction calls with
  | nil => intro acc; simp [deltasOfCalls, applyToolCallDeltas]
  | cons tc rest ih =>
    intro acc
    show applyToolCallDeltas acc
      (deltaOfCall acc.length tc :: deltasOfCalls (acc.length + 1) rest) = _
    unfold applyToolCallDeltas
    rw [applyToolCallDelta_ofCall]
    show applyToolCallDeltas (acc ++ [tc]) (deltasOfCalls (acc.length + 1) rest) =
      Except.ok (acc ++ tc :: rest)
    rw [show acc.length + 1 = (acc ++ [tc]).length by simp, ih (acc ++ [tc])]
    simp

lemma processEvents_eventsOfDecision (d : Decision) :
    processEvents {} (eventsOfDecision d) =
      ({ accumulatedContent := truthyText d.content
         toolCalls := d.toolCalls
         hasToolCalls := !d.toolCalls.isEmpty
         chunks := contentChunkList d.content }, none) := by
  cases hcalls : d.toolCalls with
  | nil =>
    show processEvents {} [_] = _
    unfold processEvents
    rw [hcalls]
    simp [deltasOfCalls, emitEventContent_eq, processEvents, applyFinish,
      String.empty_append]
  | cons a l =>
    show processEvents {} [_] = _
    unfold processEvents
    rw [hcalls]
    have hne : (deltasOfCalls 0 (a :: l)).isEmpty = false := rfl
    have happly :
        applyToolCallDeltas ([] : List ToolCall) (deltasOfCalls 0 (a :: l)) =
          .ok (a :: l) := by
      simpa using applyDeltasOfCalls (a :: l) []
    simp [hne, happly, emitEventContent_eq, processEvents, applyFinish,
      String.empty_append]

lemma execStream_eq_exec (env : Env) (auth : AuthInfo) (st : ExecState)
    (tc : ToolCall) (h : tc.arguments ≠ "") :
    (execToolCallStream env auth st tc).2 = execToolCall env auth st tc := by
  have hbne : (tc.arguments != "") = true := by simp [h]
  cases hfind : env.findTool tc.name with
  | none => simp [execToolCallStream, execToolCall, hfind]
  | some tool =>
    cases hparse : env.parseJson tc.arguments with
    | error e => simp [execToolCallStream, execToolCall, hfind, hbne, hparse]
    | ok args =>
      cases hh : tool.handler args auth with
      | error e => simp [execToolCallStream, execToolCall, hfind, hbne, hparse, hh]
      | ok r => simp [execToolCallStream, execToolCall, hfind, hbne, hparse, hh]

lemma execStreams_eq_execs (env : Env) (auth : AuthInfo) :
    ∀ (tcs : List ToolCall) (st : ExecState),
      (∀ tc ∈ tcs, tc.arguments ≠ "") →
      (execToolCallsStream env auth st tcs).2 = execToolCalls env auth st tcs := by
  intro tcs
  induction tcs with
  | nil => intro st _; rfl
  | cons tc rest ih =>
    intro st h
    rw [execToolCallsStream_cons]
    show (execToolCallsStream env auth (execToolCallStream env auth st tc).2 rest).2 = _
    rw [execStream_eq_exec env auth st tc (h tc (by simp))]
    rw [ih _ (fun x hx => h x (List.mem_cons_of_mem _ hx))]
    rfl

lemma execToolCallStream_chunks (env : Env) (auth : AuthInfo) (st : ExecState)
    (tc : ToolCall) :
    ∀ c ∈ (execToolCallStream env auth st tc).1, isToolResultChunk c = true := by
  unfold execToolCallStream
  split
  · intro c hc; simp at hc
  · split
    · intro c hc; simp at hc; simp [hc, isToolResultChunk]
    · split
      · intro c hc; simp at hc; simp [hc, isToolResultChunk]
      · intro c hc; simp at hc; simp [hc, isToolResultChunk]

lemma execToolCallsStream_chunks (env : Env) (auth : AuthInfo) :
    ∀ (tcs : List ToolCall) (st : ExecState),
      ∀ c ∈ (execToolCallsStream env auth st tcs).1, isToolResultChunk c = true := by
  intro tcs
  induction tcs with
  | nil => intro st c hc; simp [execToolCallsStream] at hc
  | cons tc rest ih =>
    intro st c hc
    rw [execToolCallsStream_cons] at hc
    simp only [List.mem_append] at hc
    rcases hc with hc | hc
    · exact execToolCallStream_chunks env auth st tc c hc
    · exact ih _ c hc

lemma decision_function_filter :
    ∀ calls : List ToolCall,
      (((calls.map (fun tc =>
          (⟨tc.id, "function", tc.name, tc.arguments⟩ : RespToolCall))).filter
        (fun tc => tc.type == "function")).map respToCall) = calls := by
  intro calls
  induction calls with
  | nil => rfl
  | cons tc rest ih =>
    simp only [List.map_cons, List.filter_cons]
    simp [respToCall, ih]

lemma isToolResultChunk_not_content {c : StreamChunk}
    (h : isToolResultChunk c = true) : isContentChunk c = false := by
  cases c <;> simp [isToolResultChunk, isContentChunk] at h ⊢

lemma chatLoop_decision_tool (env : Env) (auth : AuthInfo)
    (dec : Nat → List ChatMessage → Except String Decision)
    (fuel iter : Nat) (st : ExecState) (d : Decision)
    (hdec : dec iter st.messages = .ok d) (hne : d.toolCalls ≠ []) :
    chatLoop env (llmOfDec dec) auth (fuel + 1) iter st =
      chatLoop env (llmOfDec dec) auth fuel (iter + 1)
        (execToolCalls env auth
          { st with
            messages := st.messages ++
              [{ role := "assistant", content := d.content.getD ""
                 tool_calls := d.toolCalls }] }
          d.toolCalls) := by
  cases hcalls : d.toolCalls with
  | nil => exact absurd hcalls hne
  | cons a l =>
    have heta : ({ id := a.id, name := a.name, arguments := a.arguments } : ToolCall)
        = a := rfl
    conv_lhs => unfold chatLoop
    simp [llmOfDec, hdec, Except.map, messageOfDecision, hcalls, respToCall,
      decision_function_filter l, heta]

lemma streamLoop_decision_tool (env : Env) (auth : AuthInfo)
    (dec : Nat → List ChatMessage → Except String Decision)
    (fuel iter : Nat) (st : ExecState) (d : Decision)
    (hdec : dec iter st.messages = .ok d) (hne : d.toolCalls ≠ []) :
    streamLoop env (streamOfDec dec) auth (fuel + 1) iter st =
      (let st1 : ExecState :=
        { st with
          messages := st.messages ++
            [{ role := "assistant", content := truthyText d.content
               tool_calls := d.toolCalls }] }
       let rest := streamLoop env (streamOfDec dec) auth fuel (iter + 1)
         (execToolCallsStream env auth st1 d.toolCalls).2
       ⟨contentChunkList d.content ++ [.tool_call d.toolCalls] ++
          (execToolCallsStream env auth st1 d.toolCalls).1 ++ rest.chunks,
        rest.messages, rest.finalMeta, rest.finalStructuredContent,
        rest.finalWidgetId, rest.error⟩) := by
  cases hcalls : d.toolCalls with
  | nil => exact absurd hcalls hne
  | cons a l =>
    conv_lhs => unfold streamLoop
    simp only [streamOfDec, hdec, Except.map, processEvents_eventsOfDecision,
      hcalls]
    rcases hexec : execToolCallsStream env auth
      { st with
        messages := st.messages ++
          [{ role := "assistant", content := truthyText d.content
             tool_calls := a :: l }] } (a :: l) with ⟨ec, st2⟩
    simp [hexec]

lemma loop_equiv (env : Env) (auth : AuthInfo)
    (dec : Nat → List ChatMessage → Except String Decision)
    (hargs : ∀ i ms d1, dec i ms = .ok d1 → ∀ tc ∈ d1.toolCalls, tc.arguments ≠ "")
    (hcontent : ∀ i ms d1, dec i ms = .ok d1 → d1.toolCalls ≠ [] →
      truthyText d1.content = "") :
    ∀ (fuel iter : Nat) (st : ExecState),
      (streamLoop env (streamOfDec dec) auth fuel iter st).messages =
          (chatLoop env (llmOfDec dec) auth fuel iter st).messages
      ∧ (streamLoop env (streamOfDec dec) auth fuel iter st).error =
          (match (chatLoop env (llmOfDec dec) auth fuel iter st).result with
           | .ok _ => none
           | .error e => some e)
      ∧ ∀ r, (chatLoop env (llmOfDec dec) auth fuel iter st).result = .ok r →
          contentConcat (streamLoop env (streamOfDec dec) auth fuel iter st).chunks
              = r.content
          ∧ (streamLoop env (streamOfDec dec) auth fuel iter st).finalMeta = r._meta
          ∧ (streamLoop env (streamOfDec dec) auth fuel iter st).finalStructuredContent
              = r.structuredContent
          ∧ (streamLoop env (streamOfDec dec) auth fuel iter st).finalWidgetId
              = r.widgetId := by
  intro fuel
  induction fuel with
  | zero =>
    intro iter st
    refine ⟨rfl, rfl, ?_⟩
    intro r hr
    exact Except.noConfusion hr
  | succ fuel ih =>
    intro iter st
    cases hdec : dec iter st.messages with
    | error e =>
      refine ⟨?_, ?_, ?_⟩ <;>
        simp [streamLoop, chatLoop, streamOfDec, llmOfDec, hdec, Except.map]
    | ok d =>
      cases hcalls : d.toolCalls with
      | nil =>
        have hb : chatLoop env (llmOfDec dec) auth (fuel + 1) iter st =
            ⟨st.messages,
             .ok { content := d.content.getD "", _meta := st.finalMeta
                   structuredContent := st.finalStructuredContent
                   widgetId := st.finalWidgetId }⟩ := by
          unfold chatLoop
          simp [llmOfDec, hdec, Except.map, messageOfDecision, hcalls]
        have hs : streamLoop env (streamOfDec dec) auth (fuel + 1) iter st =
            ⟨contentChunkList d.content ++
               metadataChunkList st.finalMeta st.finalStructuredContent
                 st.finalWidgetId ++ [.done none],
             st.messages, st.finalMeta, st.finalStructuredContent,
             st.finalWidgetId, none⟩ := by
          unfold streamLoop
          simp [streamOfDec, hdec, Except.map, processEvents_eventsOfDecision,
            hcalls]
        rw [hb, hs]
        refine ⟨rfl, rfl, ?_⟩
        intro r hr
        injection hr with hr'
        subst hr'
        refine ⟨?_, rfl, rfl, rfl⟩
        rw [contentConcat_append, contentConcat_append,
          contentConcat_contentChunkList, contentConcat_metadataChunkList]
        simp [contentConcat, truthyText_eq_getD, String.append_empty]
      | cons a l =>
        have hne : d.toolCalls ≠ [] := by rw [hcalls]; simp
        have hct : truthyText d.content = "" :=
          hcontent iter st.messages d hdec hne
        have hargsd : ∀ tc ∈ d.toolCalls, tc.arguments ≠ "" :=
          hargs iter st.messages d hdec
        rw [chatLoop_decision_tool env auth dec fuel iter st d hdec hne,
          streamLoop_decision_tool env auth dec fuel iter st d hdec hne]
        simp only []
        have hst1 :
            ({ st with
               messages := st.messages ++
                 [{ role := "assistant", content := truthyText d.content
                    tool_calls := d.toolCalls }] } : ExecState) =
            { st with
              messages := st.messages ++
                [{ role := "assistant", content := d.content.getD ""
                   tool_calls := d.toolCalls }] } := by
          rw [truthyText_eq_getD]
        rw [hst1]
        set st1 : ExecState :=
          { st with
            messages := st.messages ++
              [{ role := "assistant", content := d.content.getD ""
                 tool_calls := d.toolCalls }] } with hst1def
        have hexec2 :
            (execToolCallsStream env auth st1 d.toolCalls).2 =
              execToolCalls env auth st1 d.toolCalls :=
          execStreams_eq_execs env auth d.toolCalls st1 hargsd
        rw [hexec2]
        obtain ⟨ih1, ih2, ih3⟩ :=
          ih (iter + 1) (execToolCalls env auth st1 d.toolCalls)
        refine ⟨ih1, ih2, ?_⟩
        intro r hr
        obtain ⟨hc1, hc2, hc3, hc4⟩ := ih3 r hr
        refine ⟨?_, hc2, hc3, hc4⟩
        rw [contentConcat_append, contentConcat_append, contentConcat_append]
        rw [contentChunkList_of_empty hct]
        have hec : contentConcat (execToolCallsStream env auth st1 d.toolCalls).1 = "" :=
          contentConcat_no_content _
            (fun c hc => isToolResultChunk_not_content
              (execToolCallsStream_chunks env auth d.toolCalls st1 c hc))
        rw [hec, hc1]
        simp [contentConcat, String.empty_append]

/-- Counterexample for C6.  One decision stub (round 1: content `thinking`
plus a call to `tsc` with an empty arguments string; round 2: content `done`)
drives both drivers: the buffered run ends with content `"done"` and no
structured content (the empty arguments string fails `JSON.parse`, so the
handler never runs), while the streaming run succeeds with streamed content
`"thinkingdone"` and captures the handler's structured content (the empty
arguments string is replaced by `{}` without parsing, and round-1 content is
streamed to the consumer).  Both the final content and the final
structuredContent differ, so the claim's unconditional equivalence is false. -/
theorem spec_c6_counterexample :
    (getChatCompletionModel fxEnv (llmOfDec fxDecCx) fxInit "u").result =
      .ok { content := "done" }
    ∧ (streamChatCompletionModel fxEnv (streamOfDec fxDecCx) fxInit "u").error = none
    ∧ contentConcat
        (streamChatCompletionModel fxEnv (streamOfDec fxDecCx) fxInit "u").chunks =
        "thinkingdone"
    ∧ (streamChatCompletionModel fxEnv (streamOfDec fxDecCx) fxInit "u").finalStructuredContent =
        some (.obj [("a", .num 1)])
    ∧ (("thinkingdone" == "done") = false)
    ∧ ((some (Json.obj [("a", Json.num 1)]) : Option Json).isSome = true)
    ∧ ((none : Option Json).isSome = false) :=
  ⟨rfl, rfl, rfl, rfl, by decide, rfl, rfl⟩

/-- C6, amended.  Driver equivalence holds for every deterministic decision
stub and tool registry, provided (as the counterexample forces) every tool
call the stub issues has a non-empty arguments string and every round that
issues tool calls carries no (truthy) content: when the non-streaming run
returns a result, the streaming run on the same decisions terminates without
error, streams exactly the same final content (the concatenation of its
`content` chunks), and ends with the same sticky `structuredContent`,
`widgetId` and meta. -/
theorem spec_c6_amended_driver_equivalence
    (env : Env) (userId : String) (msgs : List ChatMessage)
    (dec : Nat → List ChatMessage → Except String Decision)
    (r : ChatCompletionResult)
    (hargs : ∀ i ms d1, dec i ms = .ok d1 → ∀ tc ∈ d1.toolCalls, tc.arguments ≠ "")
    (hcontent : ∀ i ms d1, dec i ms = .ok d1 → d1.toolCalls ≠ [] →
      truthyText d1.content = "")
    (hok : (getChatCompletionModel env (llmOfDec dec) msgs userId).result = .ok r) :
    (streamChatCompletionModel env (streamOfDec dec) msgs userId).error = none
    ∧ contentConcat
        (streamChatCompletionModel env (streamOfDec dec) msgs userId).chunks =
        r.content
    ∧ (streamChatCompletionModel env (streamOfDec dec) msgs userId).finalStructuredContent =
        r.structuredContent
    ∧ (streamChatCompletionModel env (streamOfDec dec) msgs userId).finalWidgetId =
        r.widgetId
    ∧ (streamChatCompletionModel env (streamOfDec dec) msgs userId).finalMeta =
        r._meta := by
  obtain ⟨h1, h2, h3⟩ :=
    loop_equiv env ⟨"", userId⟩ dec hargs hcontent maxIterations 1 { messages := msgs }
  have hinner :
      (chatLoop env (llmOfDec dec) ⟨"", userId⟩ maxIterations 1
        { messages := msgs }).result = .ok r := by
    simp only [getChatCompletionModel] at hok
    cases hres : (chatLoop env (llmOfDec dec) ⟨"", userId⟩ maxIterations 1
        { messages := msgs }).result with
    | error e => rw [hres] at hok; simp at hok
    | ok r0 =>
      rw [hres] at hok
      simp at hok
      rw [hok]
  obtain ⟨hc1, hc2, hc3, hc4⟩ := h3 r hinner
  have herr : (streamLoop env (streamOfDec dec) ⟨"", userId⟩ maxIterations 1
      { messages := msgs }).error = none := by
    rw [h2, hinner]
  have hmodel : streamChatCompletionModel env (streamOfDec dec) msgs userId =
      streamLoop env (streamOfDec dec) ⟨"", userId⟩ maxIterations 1
        { messages := msgs } := by
    simp only [streamChatCompletionModel]
    rw [herr]
  rw [hmodel]
  exact ⟨herr, hc1, hc3, hc4, hc2⟩

/-- Witness for C6 (amended): the provisos hold for the fixture decision stub
(round 1 calls `add` with arguments `"{}"` and no content, round 2 answers
`done`), and the streaming run matches the buffered result `done` with no
sticky fields. -/
theorem spec_c6_witness :
    (streamChatCompletionModel fxEnv (streamOfDec fxDecOk) fxInit "u").error = none
    ∧ contentConcat
        (streamChatCompletionModel fxEnv (streamOfDec fxDecOk) fxInit "u").chunks =
        "done"
    ∧ (streamChatCompletionModel fxEnv (streamOfDec fxDecOk) fxInit "u").finalStructuredContent = none
    ∧ (streamChatCompletionModel fxEnv (streamOfDec fxDecOk) fxInit "u").finalWidgetId = none := by
  have h := spec_c6_amended_driver_equivalence fxEnv "u" fxInit fxDecOk
    { content := "done" }
    (by
      intro i ms d1 hd tc htc
      unfold fxDecOk at hd
      split at hd
      · injection hd with hd1
        subst hd1
        simp at htc
        subst htc
        decide
      · injection hd with hd1
        subst hd1
        simp at htc)
    (by
      intro i ms d1 hd hne
      unfold fxDecOk at hd
      split at hd
      · injection hd with hd1
        subst hd1
        rfl
      · injection hd with hd1
        subst hd1
        simp at hne)
    rfl
  exact ⟨h.1, h.2.1, h.2.2.1, h.2.2.2.1⟩

lemma contentChunkList_content (x : Option String) :
    ∀ c ∈ contentChunkList x, isContentChunk c = true := by
  unfold contentChunkList
  split
  · intro c hc
    simp at hc
    simp [hc, isContentChunk]
  · intro c hc
    simp at hc

lemma isContent_not_terminal {c : StreamChunk} (h : isContentChunk c = true) :
    isDoneChunk c = false ∧ isMetadataChunk c = false := by
  cases c <;> simp [isContentChunk, isDoneChunk, isMetadataChunk] at h ⊢

lemma isToolResult_not_terminal {c : StreamChunk} (h : isToolResultChunk c = true) :
    isDoneChunk c = false ∧ isMetadataChunk c = false := by
  cases c <;> simp [isToolResultChunk, isDoneChunk, isMetadataChunk] at h ⊢

lemma applyFinish_chunks (s : RoundStream) (ev : StreamEvent) :
    (applyFinish s ev).chunks = s.chunks := by
  unfold applyFinish
  split <;> rfl

lemma applyFinish_toolCalls (s : RoundStream) (ev : StreamEvent) :
    (applyFinish s ev).toolCalls = s.toolCalls := by
  unfold applyFinish
  split <;> rfl

lemma processEvents_chunks :
    ∀ (evs : List StreamEvent) (s : RoundStream),
      ∃ cs, (processEvents s evs).1.chunks = s.chunks ++ cs
        ∧ ∀ c ∈ cs, isContentChunk c = true := by
  intro evs
  induction evs with
  | nil => intro s; exact ⟨[], by simp [processEvents], by intro c hc; simp at hc⟩
  | cons ev rest ih =>
    intro s
    unfold processEvents
    simp only []
    by_cases hemp : ev.tool_calls.isEmpty
    · rw [if_pos hemp]
      obtain ⟨cs, h1, h2⟩ := ih (emitEventContent (applyFinish s ev) ev)
      refine ⟨contentChunkList ev.content ++ cs, ?_, ?_⟩
      · rw [h1, emitEventContent_eq, applyFinish_chunks]
        simp
      · intro c hc
        rcases List.mem_append.mp hc with hc | hc
        · exact contentChunkList_content ev.content c hc
        · exact h2 c hc
    · rw [if_neg hemp]
      cases happ : applyToolCallDeltas (applyFinish s ev).toolCalls ev.tool_calls with
      | error e =>
        refine ⟨[], ?_, by intro c hc; simp at hc⟩
        simp [applyFinish_chunks]
      | ok tcs =>
        obtain ⟨cs, h1, h2⟩ := ih (emitEventContent
          { applyFinish s ev with hasToolCalls := true, toolCalls := tcs } ev)
        refine ⟨contentChunkList ev.content ++ cs, ?_, ?_⟩
        · rw [h1, emitEventContent_eq]
          simp [applyFinish_chunks]
        · intro c hc
          rcases List.mem_append.mp hc with hc | hc
          · exact contentChunkList_content ev.content c hc
          · exact h2 c hc

lemma streamLoop_chunk_structure (env : Env)
    (llm : Nat → List ChatMessage → Except String (List StreamEvent))
    (auth : AuthInfo) :
    ∀ (fuel iter : Nat) (st : ExecState),
      ((streamLoop env llm auth fuel iter st).error.isSome = true →
        ∀ c ∈ (streamLoop env llm auth fuel iter st).chunks,
          isDoneChunk c = false ∧ isMetadataChunk c = false)
      ∧ ((streamLoop env llm auth fuel iter st).error = none →
        ∃ pre,
          (streamLoop env llm auth fuel iter st).chunks =
            pre ++
              metadataChunkList (streamLoop env llm auth fuel iter st).finalMeta
                (streamLoop env llm auth fuel iter st).finalStructuredContent
                (streamLoop env llm auth fuel iter st).finalWidgetId
              ++ [.done none]
          ∧ ∀ c ∈ pre, isDoneChunk c = false ∧ isMetadataChunk c = false) := by
  intro fuel
  induction fuel with
  | zero =>
    intro iter st
    exact ⟨fun _ c hc => by simp [streamLoop] at hc,
      fun h => Option.noConfusion h⟩
  | succ fuel ih =>
    intro iter st
    cases hllm : llm iter st.messages with
    | error e =>
      refine ⟨fun _ c hc => ?_, fun h => ?_⟩
      · simp [streamLoop, hllm] at hc
      · simp [streamLoop, hllm] at h
    | ok events =>
      obtain ⟨cs0, hcs0, hcs0c⟩ := processEvents_chunks events {}
      rcases hpe : processEvents {} events with ⟨rs, perr⟩
      have hrs : rs.chunks = cs0 := by
        rw [hpe] at hcs0
        simpa using hcs0
      cases perr with
      | some e =>
        refine ⟨fun _ c hc => ?_, fun h => ?_⟩
        · simp only [streamLoop, hllm, hpe] at hc
          exact isContent_not_terminal (hcs0c c (by rw [← hrs]; exact hc))
        · simp [streamLoop, hllm, hpe] at h
      | none =>
        by_cases hcond : (rs.hasToolCalls && !rs.toolCalls.isEmpty) = true
        · -- tool-call round: recurse
          rcases hexec : execToolCallsStream env auth
            { st with
              messages := st.messages ++
                [{ role := "assistant", content := rs.accumulatedContent
                   tool_calls := rs.toolCalls }] } rs.toolCalls with ⟨ec, st2⟩
          have hout : streamLoop env llm auth (fuel + 1) iter st =
              ⟨rs.chunks ++ [.tool_call rs.toolCalls] ++ ec ++
                 (streamLoop env llm auth fuel (iter + 1) st2).chunks,
               (streamLoop env llm auth fuel (iter + 1) st2).messages,
               (streamLoop env llm auth fuel (iter + 1) st2).finalMeta,
               (streamLoop env llm auth fuel (iter + 1) st2).finalStructuredContent,
               (streamLoop env llm auth fuel (iter + 1) st2).finalWidgetId,
               (streamLoop env llm auth fuel (iter + 1) st2).error⟩ := by
            conv_lhs => unfold streamLoop
            simp [hllm, hpe, hcond, hexec]
          have hec : ∀ c ∈ ec, isToolResultChunk c = true := by
            intro c hc
            have := execToolCallsStream_chunks env auth rs.toolCalls
              { st with
                messages := st.messages ++
                  [{ role := "assistant", content := rs.accumulatedContent
                     tool_calls := rs.toolCalls }] } c
            rw [hexec] at this
            exact this hc
          have hmem : ∀ c ∈ rs.chunks ++ [StreamChunk.tool_call rs.toolCalls] ++ ec,
              isDoneChunk c = false ∧ isMetadataChunk c = false := by
            intro c hc
            rcases List.mem_append.mp hc with hc | hc
            · rcases List.mem_append.mp hc with hc | hc
              · exact isContent_not_terminal (hcs0c c (by rw [← hrs]; exact hc))
              · simp at hc
                simp [hc, isDoneChunk, isMetadataChunk]
            · exact isToolResult_not_terminal (hec c hc)
          obtain ⟨ih1, ih2⟩ := ih (iter + 1) st2
          rw [hout]
          constructor
          · intro herr c hc
            simp only [List.append_assoc] at hc
            rcases List.mem_append.mp hc with hc | hc
            · exact hmem c (List.mem_append.mpr (Or.inl (List.mem_append.mpr (Or.inl hc))))
            · rcases List.mem_append.mp hc with hc | hc
              · exact hmem c (List.mem_append.mpr (Or.inl (List.mem_append.mpr (Or.inr hc))))
              · rcases List.mem_append.mp hc with hc | hc
                · exact hmem c (List.mem_append.mpr (Or.inr hc))
                · exact ih1 herr c hc
          · intro hnone
            obtain ⟨pre, hp1, hp2⟩ := ih2 hnone
            refine ⟨rs.chunks ++ [.tool_call rs.toolCalls] ++ ec ++ pre, ?_, ?_⟩
            · rw [hp1]
              simp [List.append_assoc]
            · intro c hc
              simp only [List.append_assoc] at hc
              rcases List.mem_append.mp hc with hc | hc
              · exact hmem c (List.mem_append.mpr (Or.inl (List.mem_append.mpr (Or.inl hc))))
              · rcases List.mem_append.mp hc with hc | hc
                · exact hmem c (List.mem_append.mpr (Or.inl (List.mem_append.mpr (Or.inr hc))))
                · rcases List.mem_append.mp hc with hc | hc
                  · exact hmem c (List.mem_append.mpr (Or.inr hc))
                  · exact hp2 c hc
        · -- terminal round
          have hout : streamLoop env llm auth (fuel + 1) iter st =
              ⟨rs.chunks ++
                 metadataChunkList st.finalMeta st.finalStructuredContent
                   st.finalWidgetId ++ [.done none],
               st.messages, st.finalMeta, st.finalStructuredContent,
               st.finalWidgetId, none⟩ := by
            conv_lhs => unfold streamLoop
            simp [hllm, hpe, hcond]
          rw [hout]
          refine ⟨fun h => by simp at h, fun _ => ⟨rs.chunks, rfl, ?_⟩⟩
          intro c hc
          exact isContent_not_terminal (hcs0c c (by rw [← hrs]; exact hc))

lemma wrapper_fold_clean (freshId : String) :
    ∀ (cs : List StreamChunk) (ws : WrapperState),
      (∀ c ∈ cs, isDoneChunk c = false ∧ isMetadataChunk c = false) →
      cs.foldl (wrapperStep freshId) ws =
        { ws with
          accumulatedContent := ws.accumulatedContent ++ contentConcat cs
          emitted := ws.emitted ++ cs } := by
  intro cs
  induction cs with
  | nil =>
    intro ws _
    cases ws
    simp [contentConcat, String.append_empty]
  | cons c rest ih =>
    intro ws h
    have hc := h c (by simp)
    have hrest : ∀ x ∈ rest, isDoneChunk x = false ∧ isMetadataChunk x = false :=
      fun x hx => h x (List.mem_cons_of_mem _ hx)
    show List.foldl _ (wrapperStep freshId ws c) rest = _
    rw [ih (wrapperStep freshId ws c) hrest]
    cases c with
    | content t =>
      by_cases ht : t = ""
      · simp [wrapperStep, ht, contentConcat, String.append_empty,
          String.append_assoc]
      · simp [wrapperStep, ht, contentConcat, String.append_assoc]
    | tool_call tcs => simp [wrapperStep, contentConcat, String.append_assoc]
    | tool_result t => simp [wrapperStep, contentConcat, String.append_assoc]
    | metadata m sc w => simp [isMetadataChunk] at hc
    | done i => simp [isDoneChunk] at hc

lemma wrapper_fold_structured (freshId : String) (pre : List StreamChunk)
    (hp : ∀ c ∈ pre, isDoneChunk c = false ∧ isMetadataChunk c = false)
    (m sc : Option Json) (w : Option String) :
    ((pre ++ metadataChunkList m sc w ++ [StreamChunk.done none]).foldl
        (wrapperStep freshId) {}).inserted =
      [⟨freshId, "assistant", contentConcat pre,
        combinedStructuredContent sc m,
        if optTruthy w then w else none⟩]
    ∧ ((pre ++ metadataChunkList m sc w ++ [StreamChunk.done none]).foldl
        (wrapperStep freshId) {}).emitted =
      pre ++ metadataChunkList m sc w ++
        [StreamChunk.done none, StreamChunk.done (some freshId)] := by
  rw [List.foldl_append, List.foldl_append,
    wrapper_fold_clean freshId pre {} hp]
  by_cases hb : (m.isSome || sc.isSome || w.isSome) = true
  · rw [show metadataChunkList m sc w = [.metadata m sc w] from by
      simp [metadataChunkList, hb]]
    simp [wrapperStep, String.empty_append]
  · have hm : m = none := by
      cases m
      · rfl
      · simp at hb
    have hsc : sc = none := by
      cases sc
      · rfl
      · simp [hm] at hb
    have hw : w = none := by
      cases w
      · rfl
      · simp [hm, hsc] at hb
    subst hm; subst hsc; subst hw
    rw [show metadataChunkList none none none = ([] : List StreamChunk) from rfl]
    simp [wrapperStep, String.empty_append, combinedStructuredContent, optTruthy]

/-- C7.  For every session-level streaming run whose driver reaches the `done`
chunk (i.e. terminates without error), the wrapper persists exactly one new
assistant message: its content is the concatenation, in emission order, of all
`content` chunk texts of the run, its structured/widget columns are built from
the run's sticky metadata (`{...structuredContent, _meta}` and
`finalWidgetId || null`), and the last chunk emitted to the consumer is a
`done` chunk carrying the persisted message's identifier. -/
theorem spec_c7_wrapper_persists (env : Env)
    (llm : Nat → List ChatMessage → Except String (List StreamEvent))
    (userId freshId : String) (rows : List DbRow)
    (h : (streamChatCompletionModel env llm
        ((selectPreviousMessages rows).map rowToChatMessage) userId).error = none) :
    (streamUserMessageByIdModel env llm userId freshId rows).inserted =
      [{ id := freshId
         role := "assistant"
         content := contentConcat (streamChatCompletionModel env llm
           ((selectPreviousMessages rows).map rowToChatMessage) userId).chunks
         structured_content := combinedStructuredContent
           (streamChatCompletionModel env llm
             ((selectPreviousMessages rows).map rowToChatMessage) userId).finalStructuredContent
           (streamChatCompletionModel env llm
             ((selectPreviousMessages rows).map rowToChatMessage) userId).finalMeta
         widget_id :=
           if optTruthy (streamChatCompletionModel env llm
               ((selectPreviousMessages rows).map rowToChatMessage) userId).finalWidgetId
           then (streamChatCompletionModel env llm
               ((selectPreviousMessages rows).map rowToChatMessage) userId).finalWidgetId
           else none }]
    ∧ (streamUserMessageByIdModel env llm userId freshId rows).emitted.getLast? =
        some (.done (some freshId))
    ∧ (streamUserMessageByIdModel env llm userId freshId rows).error = none := by
  set o := streamLoop env llm ⟨"", userId⟩ maxIterations 1
    { messages := (selectPreviousMessages rows).map rowToChatMessage } with ho
  have hoerr : o.error = none := by
    cases hcase : o.error with
    | some e =>
      exfalso
      simp only [streamChatCompletionModel] at h
      rw [← ho, hcase] at h
      simp at h
    | none => rfl
  have hmodel : streamChatCompletionModel env llm
      ((selectPreviousMessages rows).map rowToChatMessage) userId = o := by
    simp only [streamChatCompletionModel]
    rw [← ho, hoerr]
  obtain ⟨_, hstruct⟩ := streamLoop_chunk_structure env llm ⟨"", userId⟩
    maxIterations 1 { messages := (selectPreviousMessages rows).map rowToChatMessage }
  rw [← ho] at hstruct
  obtain ⟨pre, hp1, hp2⟩ := hstruct hoerr
  obtain ⟨hw1, hw2⟩ := wrapper_fold_structured freshId pre hp2
    o.finalMeta o.finalStructuredContent o.finalWidgetId
  refine ⟨?_, ?_, ?_⟩
  · show ((streamChatCompletionModel env llm
      ((selectPreviousMessages rows).map rowToChatMessage) userId).chunks.foldl
        (wrapperStep freshId) {}).inserted = _
    rw [hmodel, hp1, hw1, contentConcat_append, contentConcat_append,
      contentConcat_metadataChunkList]
    simp [contentConcat, String.append_empty]
  · show ((streamChatCompletionModel env llm
      ((selectPreviousMessages rows).map rowToChatMessage) userId).chunks.foldl
        (wrapperStep freshId) {}).emitted.getLast? = _
    rw [hmodel, hp1, hw2]
    rw [show pre ++
        metadataChunkList o.finalMeta o.finalStructuredContent o.finalWidgetId ++
        [StreamChunk.done none, StreamChunk.done (some freshId)] =
      (pre ++
        metadataChunkList o.finalMeta o.finalStructuredContent o.finalWidgetId ++
        [StreamChunk.done none]) ++ [StreamChunk.done (some freshId)] from by simp]
    exact List.getLast?_concat _
  · show (streamChatCompletionModel env llm
      ((selectPreviousMessages rows).map rowToChatMessage) userId).error = none
    exact h

/-- Witness for C7: a one-round fixture run (content `final`, no tool calls)
persists exactly one assistant row with content `final`, no structured
content and no widget, and the last emitted chunk is `done` with the new
row's id. -/
theorem spec_c7_witness :
    (streamUserMessageByIdModel fxEnv (fxStreamUpTo 0) "u" "a1" fxRows).inserted =
      [⟨"a1", "assistant", "final", none, none⟩]
    ∧ (streamUserMessageByIdModel fxEnv (fxStreamUpTo 0) "u" "a1" fxRows).emitted.getLast? =
        some (.done (some "a1")) := by
  have h := spec_c7_wrapper_persists fxEnv (fxStreamUpTo 0) "u" "a1" fxRows rfl
  exact ⟨h.1.trans rfl, h.2.1⟩

/-- C8.  Run-level failure atomicity: when the streaming driver fails fatally
(any thrown error — the iteration cap and upstream transport failures are the
fatal causes), the wrapper persists no assistant message (the message store
receives no row), its own error is the same thrown error, no `done` chunk is
ever emitted to the consumer, and the subscription surfaces the failure as a
terminal error event rather than a `done` chunk. -/
theorem spec_c8_failure_atomicity (env : Env)
    (llm : Nat → List ChatMessage → Except String (List StreamEvent))
    (userId freshId : String) (rows : List DbRow) (e : String)
    (h : (streamChatCompletionModel env llm
        ((selectPreviousMessages rows).map rowToChatMessage) userId).error = some e) :
    (streamUserMessageByIdModel env llm userId freshId rows).inserted = []
    ∧ (streamUserMessageByIdModel env llm userId freshId rows).error = some e
    ∧ (∀ c ∈ (streamUserMessageByIdModel env llm userId freshId rows).emitted,
        isDoneChunk c = false)
    ∧ (streamMessageEvents
        (streamUserMessageByIdModel env llm userId freshId rows)).getLast? =
        some (.errorEvent e) := by
  set o := streamLoop env llm ⟨"", userId⟩ maxIterations 1
    { messages := (selectPreviousMessages rows).map rowToChatMessage } with ho
  cases hcase : o.error with
  | none =>
    exfalso
    simp only [streamChatCompletionModel] at h
    rw [← ho] at h
    simp [hcase] at h
  | some e0 =>
    have hchunks : (streamChatCompletionModel env llm
        ((selectPreviousMessages rows).map rowToChatMessage) userId).chunks =
        o.chunks := by
      simp only [streamChatCompletionModel]
      rw [← ho, hcase]
    obtain ⟨hstruct1, _⟩ := streamLoop_chunk_structure env llm ⟨"", userId⟩
      maxIterations 1 { messages := (selectPreviousMessages rows).map rowToChatMessage }
    rw [← ho] at hstruct1
    have hterm : ∀ c ∈ o.chunks, isDoneChunk c = false ∧ isMetadataChunk c = false :=
      hstruct1 (by rw [hcase]; rfl)
    have hfold := wrapper_fold_clean freshId o.chunks {} hterm
    refine ⟨?_, ?_, ?_, ?_⟩
    · show ((streamChatCompletionModel env llm
        ((selectPreviousMessages rows).map rowToChatMessage) userId).chunks.foldl
          (wrapperStep freshId) {}).inserted = []
      rw [hchunks, hfold]
    · exact h
    · intro c hc
      have hc2 : c ∈ ((streamChatCompletionModel env llm
          ((selectPreviousMessages rows).map rowToChatMessage) userId).chunks.foldl
            (wrapperStep freshId) {}).emitted := hc
      rw [hchunks, hfold] at hc2
      simp at hc2
      exact (hterm c hc2).1
    · show ((streamUserMessageByIdModel env llm userId freshId rows).emitted.map
          SubEvent.next ++
          (match (streamUserMessageByIdModel env llm userId freshId rows).error with
           | some e => [SubEvent.errorEvent e]
           | none => [])).getLast? = _
      rw [show (streamUserMessageByIdModel env llm userId freshId rows).error =
        some e from h]
      exact List.getLast?_concat _

/-- Witness for C8: a fixture run whose LLM transport always rejects persists
nothing, and the subscription's last event is the propagated error. -/
theorem spec_c8_witness :
    (streamUserMessageByIdModel fxEnv fxStreamFail "u" "a1" fxRows).inserted = []
    ∧ (streamMessageEvents
        (streamUserMessageByIdModel fxEnv fxStreamFail "u" "a1" fxRows)).getLast? =
        some (.errorEvent "Failed to stream chat completion: network down") := by
  have h := spec_c8_failure_atomicity fxEnv fxStreamFail "u" "a1" fxRows
    "Failed to stream chat completion: network down" rfl
  exact ⟨h.1, h.2.2.2⟩

end ChatApp
